import Mathlib

/-!
# Verification of the sdqctl workflow-interpreter core

This file gives a shallow embedding in Lean 4 of the core of the `sdqctl`
repository: the command utilities (`sdqctl/commands/utils.py`), the model
capability resolver (`sdqctl/core/models.py`), the file-restriction merge,
the custom-directive registries, and the step executor of
`sdqctl/commands/run.py` (`_run_async`), together with theorems settling
the frozen specification claims about them.

Python strings are modelled as Lean `String` (a list of characters, so
`len`, slicing and concatenation agree with Python code-point semantics).
Python functions that can raise are modelled with `Except`.
-/

namespace Sdqctl

/-! ## Python string primitives

Character-level embeddings of the Python `str` operations used by the
sources.  Python `str.lower` / `str.upper` are modelled on the basic-latin
range, which is the only range exercised by directive names. -/

/-- Embedding of Python `str.lower` on one character (basic latin). -/
def pyCharLower (c : Char) : Char :=
  if 65 ≤ c.toNat ∧ c.toNat ≤ 90 then Char.ofNat (c.toNat + 32) else c

/-- Embedding of Python `str.upper` on one character (basic latin). -/
def pyCharUpper (c : Char) : Char :=
  if 97 ≤ c.toNat ∧ c.toNat ≤ 122 then Char.ofNat (c.toNat - 32) else c

/-- Embedding of Python `str.lower`. -/
def pyLower (s : String) : String := ⟨s.data.map pyCharLower⟩

/-- Embedding of Python `str.upper`. -/
def pyUpper (s : String) : String := ⟨s.data.map pyCharUpper⟩

/-- Embedding of the Python slice `s[:n]`. -/
def pyHeadSlice (s : String) (n : Nat) : String := ⟨s.data.take n⟩

/-- The last `n` characters of `s` (the mathematical reading of `s[-n:]`,
without the Python quirk at `n = 0`). -/
def lastChars (s : String) (n : Nat) : String :=
  ⟨s.data.drop (s.data.length - n)⟩

/-- Embedding of the Python slice `s[-n:]`.  For `n = 0` Python evaluates
`s[-0:] = s[0:]`, which is the whole string, not the empty string. -/
def pyTailSlice (s : String) (n : Nat) : String :=
  if n = 0 then s else lastChars s n

theorem string_data_append (a b : String) : (a ++ b).data = a.data ++ b.data := rfl

theorem char_toNat_ofNat_valid (n : Nat) (h : n < 55296) :
    (Char.ofNat n).toNat = n := by
  have hv : n.isValidChar := Or.inl h
  rw [Char.ofNat, dif_pos hv]
  rfl

/-- Lower-casing then upper-casing a character agrees with upper-casing it
directly (the two case maps are inverse on the latin letters). -/
theorem pyCharUpper_pyCharLower (c : Char) :
    pyCharUpper (pyCharLower c) = pyCharUpper c := by
  unfold pyCharLower pyCharUpper
  by_cases h : 65 ≤ c.toNat ∧ c.toNat ≤ 90
  · have hv : (Char.ofNat (c.toNat + 32)).toNat = c.toNat + 32 :=
      char_toNat_ofNat_valid _ (by omega)
    rw [if_pos h, if_pos (by rw [hv]; omega), hv, if_neg (by omega)]
    have h32 : c.toNat + 32 - 32 = c.toNat := by omega
    rw [h32, Char.ofNat_toNat]
  · rw [if_neg h]

/-- Upper-casing a lower-cased string agrees with upper-casing it directly. -/
theorem pyUpper_pyLower (s : String) : pyUpper (pyLower s) = pyUpper s := by
  unfold pyUpper pyLower
  simp [List.map_map, Function.comp_def, pyCharUpper_pyCharLower]

/-! ## `truncate_output` (sdqctl/commands/utils.py)

```python
def truncate_output(text, limit):
    if limit is None or len(text) <= limit:
        return text
    head_size = limit * 2 // 3
    tail_size = limit // 3
    truncated = len(text) - limit
    return f"{text[:head_size]}\n\n[... {truncated} chars truncated ...]\n\n{text[-tail_size:]}"
```
-/

def truncate_output (text : String) (limit : Option Nat) : String :=
  match limit with
  | none => text
  | some l =>
    if text.data.length ≤ l then text
    else
      let head_size := l * 2 / 3
      let tail_size := l / 3
      let truncated := text.data.length - l
      pyHeadSlice text head_size ++ "\n\n[... " ++ toString truncated
        ++ " chars truncated ...]\n\n" ++ pyTailSlice text tail_size

/-- C9 (counterexample): at `text = "abcd"`, `limit = 2` the code returns
`"a\n\n[... 2 chars truncated ...]\n\nabcd"`: the tail slice `text[-0:]`
is the whole string, not the last `limit // 3 = 0` characters, so the
output differs from the claimed head-marker-tail form. -/
theorem c9_truncate_output_counterexample :
    truncate_output "abcd" (some 2)
        = "a\n\n[... 2 chars truncated ...]\n\nabcd"
      ∧ truncate_output "abcd" (some 2)
        ≠ pyHeadSlice "abcd" (2 * 2 / 3) ++ "\n\n[... " ++ toString (4 - 2)
            ++ " chars truncated ...]\n\n" ++ lastChars "abcd" (2 / 3) := by
  constructor
  · rfl
  · decide

/-- C9 (amended): `truncate_output` is the identity when `limit` is `none`
or `len(text) ≤ limit`; otherwise it returns the first `limit*2//3`
characters, a marker reporting `len(text) - limit` truncated characters,
and then the last `limit//3` characters when `limit//3 > 0` but the whole
text when `limit//3 = 0` (the Python slice `text[-0:]`); a truncated
result is always strictly longer than `limit`. -/
theorem c9_truncate_output_characterization (text : String) (limit : Option Nat) :
    (limit = none → truncate_output text limit = text)
  ∧ (∀ l, limit = some l → text.data.length ≤ l → truncate_output text limit = text)
  ∧ (∀ l, limit = some l → l < text.data.length →
      truncate_output text limit
        = pyHeadSlice text (l * 2 / 3) ++ "\n\n[... "
            ++ toString (text.data.length - l) ++ " chars truncated ...]\n\n"
            ++ (if l / 3 = 0 then text else lastChars text (l / 3))
      ∧ l < (truncate_output text limit).data.length) := by
  refine ⟨?_, ?_, ?_⟩
  · rintro rfl; rfl
  · rintro l rfl hle
    simp only [truncate_output]
    rw [if_pos hle]
  · rintro l rfl hlt
    have hnle : ¬ text.data.length ≤ l := by omega
    constructor
    · simp only [truncate_output, pyTailSlice]
      rw [if_neg hnle]
    · simp only [truncate_output]
      rw [if_neg hnle]
      simp only [string_data_append, List.length_append, pyHeadSlice, pyTailSlice,
        lastChars, List.length_take, List.length_drop, List.length_cons, List.length_nil]
      by_cases h0 : l / 3 = 0
      · rw [if_pos h0]
        omega
      · rw [if_neg h0]
        simp only [lastChars, List.length_drop]
        omega

/-- C9 witness: the amended characterization evaluated at
`text = "abcdef"`, `limit = 3`. -/
theorem c9_truncate_output_witness :
    truncate_output "abcdef" (some 3)
      = pyHeadSlice "abcdef" (3 * 2 / 3) ++ "\n\n[... "
          ++ toString (("abcdef" : String).data.length - 3) ++ " chars truncated ...]\n\n"
          ++ (if 3 / 3 = 0 then "abcdef" else lastChars "abcdef" (3 / 3))
    ∧ 3 < (truncate_output "abcdef" (some 3)).data.length :=
  (c9_truncate_output_characterization "abcdef" (some 3)).2.2 3 rfl (by decide)

/-! ## Substring containment

`SubstrData needle hay` says the character sequence of `needle` occurs
contiguously inside `hay`; it models the Python `needle in hay` test. -/

def SubstrData (needle hay : String) : Prop :=
  ∃ pre post : List Char, hay.data = pre ++ needle.data ++ post

theorem substrData_append_left (needle a b : String) (h : SubstrData needle a) :
    SubstrData needle (a ++ b) := by
  obtain ⟨pre, post, hp⟩ := h
  exact ⟨pre, post ++ b.data, by rw [string_data_append, hp]; simp⟩

theorem substrData_append_right (needle a b : String) (h : SubstrData needle b) :
    SubstrData needle (a ++ b) := by
  obtain ⟨pre, post, hp⟩ := h
  exact ⟨a.data ++ pre, post, by rw [string_data_append, hp]; simp⟩

theorem substrData_refl (s : String) : SubstrData s s :=
  ⟨[], [], by simp⟩

/-! ## `FileRestrictions.merge_with_cli`

The `FileRestrictions` dataclass and its `merge_with_cli` method live in
`sdqctl/core/conversation.py`, which is not part of the provided sources
(only its caller `sdqctl/commands/run.py` is). -/

structure FileRestrictions where
  allow_patterns : List String
  deny_patterns : List String
  allow_dirs : List String
  deny_dirs : List String
deriving DecidableEq

/-- Modelled from the spec: `merge_with_cli(cli_allow, cli_deny)` of the
missing `sdqctl/core/conversation.py`.  If both CLI lists are empty the
workflow restrictions are returned unchanged; otherwise CLI allow
patterns replace the workflow allow patterns when non-empty, and CLI deny
patterns are appended to the workflow deny patterns. -/
def FileRestrictions.merge_with_cli (r : FileRestrictions)
    (cli_allow cli_deny : List String) : FileRestrictions :=
  if cli_allow.isEmpty && cli_deny.isEmpty then r
  else
    { r with
      allow_patterns := if cli_allow.isEmpty then r.allow_patterns else cli_allow
      deny_patterns := r.deny_patterns ++ cli_deny }

/-- Directory-to-glob expansion performed by `_run_async` in
`sdqctl/commands/run.py` before calling `merge_with_cli`. -/
def expandDir (d : String) : String := d ++ "/**"

/-- The CLI restriction merge of `_run_async` (`run.py` lines 182-194):
when any of the four CLI option lists is non-empty, directories are
expanded to `dir/**` globs and merged via `merge_with_cli`. -/
def cliMergedRestrictions (r : FileRestrictions)
    (allow_files deny_files allow_dir deny_dir : List String) : FileRestrictions :=
  if allow_files.isEmpty && deny_files.isEmpty && allow_dir.isEmpty && deny_dir.isEmpty then
    r
  else
    r.merge_with_cli (allow_files ++ allow_dir.map expandDir)
      (deny_files ++ deny_dir.map expandDir)

/-- C3: `merge_with_cli` with both CLI lists empty is the identity on the
original `FileRestrictions`: all four fields are unchanged. -/
theorem c3_merge_with_cli_identity (r : FileRestrictions) :
    r.merge_with_cli [] [] = r
  ∧ (r.merge_with_cli [] []).allow_patterns = r.allow_patterns
  ∧ (r.merge_with_cli [] []).deny_patterns = r.deny_patterns
  ∧ (r.merge_with_cli [] []).allow_dirs = r.allow_dirs
  ∧ (r.merge_with_cli [] []).deny_dirs = r.deny_dirs := by
  refine ⟨rfl, rfl, rfl, rfl, rfl⟩

/-- C2: with at least one CLI list non-empty, `merge_with_cli` replaces
the allow patterns with `cli_allow` when that is non-empty (keeping the
workflow allow patterns otherwise) and appends `cli_deny` to the workflow
deny patterns, order-preserving; and the `run.py` caller passes directory
arguments expanded to `dir/**` glob form. -/
theorem c2_merge_with_cli_replace_append (r : FileRestrictions)
    (cli_allow cli_deny : List String) (h : cli_allow ≠ [] ∨ cli_deny ≠ []) :
    (r.merge_with_cli cli_allow cli_deny).allow_patterns
      = (if cli_allow ≠ [] then cli_allow else r.allow_patterns)
  ∧ (r.merge_with_cli cli_allow cli_deny).deny_patterns
      = r.deny_patterns ++ cli_deny
  ∧ ∀ allow_files deny_files allow_dir deny_dir : List String,
      (allow_files ≠ [] ∨ deny_files ≠ [] ∨ allow_dir ≠ [] ∨ deny_dir ≠ []) →
      cliMergedRestrictions r allow_files deny_files allow_dir deny_dir
        = r.merge_with_cli
            (allow_files ++ allow_dir.map (fun d => d ++ "/**"))
            (deny_files ++ deny_dir.map (fun d => d ++ "/**")) := by
  have hguard : ¬ (cli_allow.isEmpty && cli_deny.isEmpty) = true := by
    rcases h with h | h <;> cases cli_allow <;> cases cli_deny <;> simp_all
  refine ⟨?_, ?_, ?_⟩
  · rw [FileRestrictions.merge_with_cli, if_neg hguard]
    cases cli_allow <;> simp
  · rw [FileRestrictions.merge_with_cli, if_neg hguard]
  · intro af df ad dd hne
    have hg : ¬ (af.isEmpty && df.isEmpty && ad.isEmpty && dd.isEmpty) = true := by
      rcases hne with h | h | h | h <;> cases af <;> cases df <;> cases ad <;> cases dd
        <;> simp_all
    rw [cliMergedRestrictions, if_neg hg]
    rfl

/-- C2 witness: the merge evaluated at a concrete restriction set with
CLI allow `["a/*"]` and CLI deny `["b/*"]` plus one deny directory. -/
theorem c2_merge_with_cli_witness :
    ((FileRestrictions.mk ["w/*"] ["x/*"] [] []).merge_with_cli
        ["a/*"] ["b/*"]).allow_patterns = ["a/*"] := by
  have h := c2_merge_with_cli_replace_append
    (FileRestrictions.mk ["w/*"] ["x/*"] [] []) ["a/*"] ["b/*"]
    (Or.inl (by decide))
  rw [h.1]
  decide

/-! ## Directive type registry (C5) and hook registry (C4)

`sdqctl.core.conversation.types` and `sdqctl.plugins` are not part of the
provided sources; only their tests (`tests/test_directive_types.py`,
`tests/test_directive_hooks.py`) are.  The registries are modelled from
the spec (sections 4.1 and 4.2), with Python dicts embedded as
association lists: insertion conses the new binding in front and lookup
returns the first match, which reproduces dict overwrite semantics. -/

theorem pyLower_append (a b : String) :
    pyLower (a ++ b) = pyLower a ++ pyLower b := by
  simp only [pyLower, string_data_append, List.map_append]
  rfl

/-- First-match association-list lookup (Python `dict.get`). -/
def findEntry {α : Type} : List (String × α) → String → Option α
  | [], _ => none
  | (k, v) :: rest, key => if k = key then some v else findEntry rest key

theorem findEntry_eq_none {α : Type} :
    ∀ (reg : List (String × α)) (key : String),
      key ∉ reg.map Prod.fst → findEntry reg key = none
  | [], _, _ => rfl
  | (k, v) :: rest, key, h => by
    simp only [List.map_cons, List.mem_cons, not_or] at h
    rw [findEntry, if_neg (fun hk => h.1 hk.symm)]
    exact findEntry_eq_none rest key h.2

/-- The built-in directive kinds (spec section 3 and 6). -/
inductive DirectiveType
  | MODEL | ADAPTER | PROMPT | MAXCYCLES | CONTEXTLIMIT | ONCONTEXTLIMIT
  | VERIFY | VERIFYONERROR | VERIFYOUTPUT | PAUSE
deriving DecidableEq

/-- The workflow keyword of a built-in directive kind. -/
def DirectiveType.keyword : DirectiveType → String
  | .MODEL => "MODEL"
  | .ADAPTER => "ADAPTER"
  | .PROMPT => "PROMPT"
  | .MAXCYCLES => "MAX-CYCLES"
  | .CONTEXTLIMIT => "CONTEXT-LIMIT"
  | .ONCONTEXTLIMIT => "ON-CONTEXT-LIMIT"
  | .VERIFY => "VERIFY"
  | .VERIFYONERROR => "VERIFY-ON-ERROR"
  | .VERIFYOUTPUT => "VERIFY-OUTPUT"
  | .PAUSE => "PAUSE"

/-- The custom directive type registry, mapping upper-cased names to
registration metadata. -/
def CustomDirectiveRegistry (α : Type) : Type := List (String × α)

/-- Modelled from the spec: `register_custom_directive(name, metadata)` of
the missing `sdqctl/core/conversation/types.py` adds or overwrites a
custom type under the upper-cased name. -/
def register_custom_directive {α : Type} (reg : CustomDirectiveRegistry α)
    (name : String) (metadata : α) : CustomDirectiveRegistry α :=
  (pyUpper name, metadata) :: reg

/-- Modelled from the spec: `is_custom_directive(name)` is true exactly
when the upper-cased name is a registered custom type. -/
def is_custom_directive {α : Type} (reg : CustomDirectiveRegistry α)
    (name : String) : Bool :=
  (findEntry reg (pyUpper name)).isSome

/-- Modelled from the spec: `clear_custom_directives()` empties the
registry. -/
def clear_custom_directives (α : Type) : CustomDirectiveRegistry α := []

/-- C5: registering a name makes `is_custom_directive` true for it and for
its lower-cased variant; `is_custom_directive` is false for every name
whose upper-cased form was never registered, in particular for every
built-in keyword on a cleared registry; and after `clear` the registry
rejects every name. -/
theorem c5_custom_directive_registry {α : Type} (reg : CustomDirectiveRegistry α)
    (name : String) (metadata : α) :
    is_custom_directive (register_custom_directive reg name metadata) name = true
  ∧ is_custom_directive (register_custom_directive reg name metadata) (pyLower name) = true
  ∧ (∀ nm, pyUpper nm ∉ (reg : List (String × α)).map Prod.fst →
      is_custom_directive reg nm = false)
  ∧ (∀ d : DirectiveType, is_custom_directive (clear_custom_directives α) d.keyword = false)
  ∧ (∀ nm, is_custom_directive (clear_custom_directives α) nm = false) := by
  refine ⟨?_, ?_, ?_, ?_, ?_⟩
  · simp [is_custom_directive, register_custom_directive, findEntry]
  · simp [is_custom_directive, register_custom_directive, findEntry, pyUpper_pyLower]
  · intro nm h
    simp [is_custom_directive, findEntry_eq_none reg (pyUpper nm) h]
  · intro d
    rfl
  · intro nm
    rfl

/-- C5 witness: registering `"TRACE"` in the empty `Nat`-metadata registry
makes both `"TRACE"` and `"trace"` custom, and `"HYGIENE"` stays
non-custom in the empty registry. -/
theorem c5_custom_directive_registry_witness :
    is_custom_directive (register_custom_directive ([] : CustomDirectiveRegistry Nat) "TRACE" 0)
      (pyLower "TRACE") = true
  ∧ is_custom_directive ([] : CustomDirectiveRegistry Nat) "HYGIENE" = false := by
  have h := c5_custom_directive_registry ([] : CustomDirectiveRegistry Nat) "TRACE" 0
  exact ⟨h.2.1, h.2.2.1 "HYGIENE" (by decide)⟩

/-! ## Custom directive execution (C4) -/

/-- Execution context handed to a custom directive hook (spec section 4.2). -/
structure DirectiveExecutionContext where
  workspace_root : String
  directive_name : String
  directive_value : String
  line_number : Nat
  session_id : Option String
  cycle_number : Nat

/-- Tagged success/failure outcome of a custom directive execution. -/
structure DirectiveExecutionResult where
  success : Bool
  output : String
  inject_into_prompt : Bool
  errors : List String
deriving DecidableEq

/-- `DirectiveExecutionResult.ok(output, inject)`. -/
def DirectiveExecutionResult.ok (output : String) (inject : Bool) :
    DirectiveExecutionResult :=
  ⟨true, output, inject, []⟩

/-- `DirectiveExecutionResult.fail(errors)`. -/
def DirectiveExecutionResult.fail (errors : List String) :
    DirectiveExecutionResult :=
  ⟨false, "", true, errors⟩

/-- A hook either returns a result or raises; a raised Python exception is
modelled as `Except.error` carrying the exception message. -/
def DirectiveHook : Type :=
  DirectiveExecutionContext → Except String DirectiveExecutionResult

/-- The process-wide hook table of `sdqctl.plugins`. -/
def DirectiveHookRegistry : Type := List (String × DirectiveHook)

/-- Modelled from the spec: `register_directive_hook(name, hook)` of the
missing `sdqctl/plugins.py`, case-insensitive via upper-casing. -/
def register_directive_hook (reg : DirectiveHookRegistry) (name : String)
    (hook : DirectiveHook) : DirectiveHookRegistry :=
  (pyUpper name, hook) :: reg

/-- Modelled from the spec: `get_directive_hook(name)` of the missing
`sdqctl/plugins.py`. -/
def get_directive_hook (reg : DirectiveHookRegistry) (name : String) :
    Option DirectiveHook :=
  findEntry reg (pyUpper name)

/-- Modelled from the spec: `execute_custom_directive` of the missing
`sdqctl/plugins.py`.  An unregistered name yields a failure result with a
single "No execution hook registered" error; a hook that raises yields a
failure result embedding the original message; a hook that returns is
passed through unchanged.  The function is total: hook faults never
propagate. -/
def execute_custom_directive (reg : DirectiveHookRegistry)
    (name value workspace_root : String) (line_number : Nat)
    (session_id : Option String) (cycle_number : Nat) : DirectiveExecutionResult :=
  match get_directive_hook reg name with
  | none => .fail ["No execution hook registered for directive: " ++ name]
  | some hook =>
    match hook ⟨workspace_root, name, value, line_number, session_id, cycle_number⟩ with
    | .ok r => r
    | .error e => .fail ["Hook execution error: " ++ e]

/-- C4: on an unregistered name (lookup is case-insensitive),
`execute_custom_directive` fails with exactly one error whose lower-cased
text contains "no execution hook"; when the hook raises with message `e`,
it fails with exactly one error containing `e`; being a total function it
never propagates the fault. -/
theorem c4_execute_custom_directive (reg : DirectiveHookRegistry)
    (name value root : String) (ln : Nat) (sid : Option String) (cyc : Nat) :
    (get_directive_hook reg name = none →
      (execute_custom_directive reg name value root ln sid cyc).success = false
      ∧ ∃ e, (execute_custom_directive reg name value root ln sid cyc).errors = [e]
          ∧ SubstrData "no execution hook" (pyLower e))
  ∧ (∀ hook e, get_directive_hook reg name = some hook →
      hook ⟨root, name, value, ln, sid, cyc⟩ = .error e →
        (execute_custom_directive reg name value root ln sid cyc).success = false
      ∧ (execute_custom_directive reg name value root ln sid cyc).errors
          = ["Hook execution error: " ++ e]
      ∧ SubstrData e ("Hook execution error: " ++ e))
  ∧ (∀ nm, get_directive_hook reg (pyLower nm) = get_directive_hook reg nm) := by
  refine ⟨?_, ?_, ?_⟩
  · intro hnone
    rw [execute_custom_directive, hnone]
    refine ⟨rfl, "No execution hook registered for directive: " ++ name, rfl, ?_⟩
    rw [pyLower_append]
    refine ⟨[], (" registered for directive: ").data ++ (pyLower name).data, ?_⟩
    rw [string_data_append]
    have hlit : (pyLower "No execution hook registered for directive: ").data
        = ("no execution hook").data ++ (" registered for directive: ").data := by
      decide
    rw [hlit]
    simp
  · intro hook e hsome herr
    simp only [execute_custom_directive, hsome, herr]
    refine ⟨rfl, rfl, ("Hook execution error: ").data, [], ?_⟩
    rw [string_data_append]
    simp
  · intro nm
    rw [get_directive_hook, get_directive_hook, pyUpper_pyLower]

/-- Hook used by the C4 witness: always raises. -/
def c4BadHook : DirectiveHook := fun _ => Except.error "Hook crashed!"

/-- Registry used by the C4 witness. -/
def c4Registry : DirectiveHookRegistry := register_directive_hook [] "BAD" c4BadHook

/-- C4 witness: executing the raising hook at a concrete input yields the
single embedded error message. -/
theorem c4_execute_custom_directive_witness :
    (execute_custom_directive c4Registry "BAD" "value" "/ws" 5 none 1).errors
      = ["Hook execution error: " ++ "Hook crashed!"] :=
  ((c4_execute_custom_directive c4Registry "BAD" "value" "/ws" 5 none 1).2.1
    c4BadHook "Hook crashed!" rfl rfl).2.1

/-! ## Model capability resolution (sdqctl/core/models.py)

Full embedding of `resolve_model` and its helpers.  The context-size
parsing of `_parse_context_size` uses Python `int(...)` and
`int(float(...) * mult)`.  The float path is embedded with IEEE 754
binary64 semantics in exact integer arithmetic: the literal is parsed to
a rational and correctly rounded (round-half-even) to a double, exactly
as CPython strtod does; the multiplication by 1000 or 1000000 rounds the
product again; a float overflow yields infinity, on which `int()` raises
`OverflowError`.  Two obscure literal families are outside the model and
conservatively mapped to the raising outcome, so no theorem hypothesis
can admit them: digit-group underscores (`1_0k`), and values rounding
into the subnormal range (more than about 300 leading fractional
zeros). -/

/-- Embedding of Python `str.strip()` (whitespace at both ends). -/
def pyStrip (s : String) : String :=
  ⟨(((s.data.dropWhile Char.isWhitespace).reverse.dropWhile Char.isWhitespace).reverse)⟩

/-- Embedding of Python `str.endswith(suffix)`. -/
def pyEndsWith (s suffix : String) : Bool :=
  suffix.data.isSuffixOf s.data

/-- Embedding of the Python slice `s[:-1]`. -/
def pyDropLast (s : String) : String := ⟨s.data.dropLast⟩

/-- Decimal value of a digit list. -/
def natOfDigits (l : List Char) : Nat :=
  l.foldl (fun acc c => acc * 10 + (c.toNat - 48)) 0

/-- Embedding of Python `int(s)` on an already-stripped string: an
optional sign followed by digits; anything else raises `ValueError`.
Digit-group underscores (`5_0`), which CPython accepts, are not
modelled and conservatively mapped to the raising outcome. -/
def pyIntStr (s : String) : Except Unit Int :=
  match s.data with
  | '-' :: ds =>
    if !ds.isEmpty && ds.all Char.isDigit then .ok (-(natOfDigits ds : Int)) else .error ()
  | '+' :: ds =>
    if !ds.isEmpty && ds.all Char.isDigit then .ok (natOfDigits ds : Int) else .error ()
  | ds =>
    if !ds.isEmpty && ds.all Char.isDigit then .ok (natOfDigits ds : Int) else .error ()

/-- One binary64 value produced by Python `float(p)`: zero, a finite
normal number of magnitude `m * 2^g` with `2^52 <= m < 2^53`, infinity
(parse overflow, on which a later `int()` raises `OverflowError`), a
value in the subnormal range (outside the model), an invalid literal
(`float` raises `ValueError`), or a literal form outside the model
(digit-group underscores). -/
inductive PyFloatVal
  | zero
  | finite (neg : Bool) (m : Nat) (g : Int)
  | inf
  | subnormalRange
  | invalid
  | unmodelled
deriving DecidableEq

/-- Floor of log2 by structural recursion on a fuel bound (so that it
reduces definitionally, unlike the well-founded `Nat.log2`). -/
def natLog2Aux : Nat → Nat → Nat
  | 0, _ => 0
  | fuel + 1, n => if 2 ≤ n then natLog2Aux fuel (n / 2) + 1 else 0

/-- `⌊log2 n⌋` (0 for `n = 0`). -/
def natLog2 (n : Nat) : Nat := natLog2Aux n n

/-- `2^e <= num/den`, by exact integer comparison. -/
def ratPow2Le (e : Int) (num den : Nat) : Bool :=
  if 0 ≤ e then den * 2 ^ e.toNat ≤ num else den ≤ num * 2 ^ (-e).toNat

/-- The floor of `log2 (num/den)` for positive `num` and `den`: the
bit-length difference is either exact or one too large. -/
def floorLog2Rat (num den : Nat) : Int :=
  let c : Int := (natLog2 num : Int) - (natLog2 den : Int)
  if ratPow2Le c num den then c else c - 1

/-- Round the positive rational `num/den` to the nearest binary64 value
(round-half-even), as IEEE 754 and the correctly-rounding CPython strtod
do: the 53-bit significand is the rounded value of `num/den * 2^(52-s)`
where `s` is the floor of the log2; a rounded value at or beyond
`2^1024` is infinity; results below `2^-1022` fall in the subnormal
range, which the model does not cover. -/
def roundRat (neg : Bool) (num den : Nat) : PyFloatVal :=
  let s := floorLog2Rat num den
  if s < -1022 then .subnormalRange
  else if 1023 < s then .inf
  else
    let t : Int := 52 - s
    let num2 := if 0 ≤ t then num * 2 ^ t.toNat else num
    let den2 := if 0 ≤ t then den else den * 2 ^ (-t).toNat
    let q := num2 / den2
    let r := num2 % den2
    let q2 := if den2 < 2 * r ∨ (2 * r = den2 ∧ q % 2 = 1) then q + 1 else q
    if q2 = 2 ^ 53 then
      if s = 1023 then .inf else .finite neg (2 ^ 52) (s - 51)
    else .finite neg q2 (s - 52)

/-- Exponent part of a float literal: an optional sign and digits. -/
def parseSignedDigits (l : List Char) : Option Int :=
  match l with
  | '-' :: ds =>
    if !ds.isEmpty && ds.all Char.isDigit then some (-(natOfDigits ds : Int)) else none
  | '+' :: ds =>
    if !ds.isEmpty && ds.all Char.isDigit then some ((natOfDigits ds : Int)) else none
  | ds =>
    if !ds.isEmpty && ds.all Char.isDigit then some ((natOfDigits ds : Int)) else none

/-- Mantissa of a float literal: digits with an optional decimal point
and at least one digit; returns the combined digit value and the number
of fraction digits. -/
def parseMantissa (l : List Char) : Option (Nat × Nat) :=
  let ip := l.takeWhile (fun c => c ≠ '.')
  match l.dropWhile (fun c => c ≠ '.') with
  | [] => if !ip.isEmpty && ip.all Char.isDigit then some (natOfDigits ip, 0) else none
  | _ :: frac =>
    if (ip.all Char.isDigit && frac.all Char.isDigit) && (!ip.isEmpty || !frac.isEmpty)
    then some (natOfDigits (ip ++ frac), frac.length)
    else none

/-- Split a float literal at the exponent marker `e` (the input is
already lower-cased). -/
def splitExp (l : List Char) : Option (List Char × Int) :=
  match l.dropWhile (fun c => c ≠ 'e') with
  | [] => some (l, 0)
  | _ :: es =>
    match parseSignedDigits es with
    | some ex => some (l.takeWhile (fun c => c ≠ 'e'), ex)
    | none => none

/-- Embedding of CPython `float(p)` on a stripped, lower-cased literal:
optional sign, digits with an optional decimal point, optional exponent.
The mantissa and exponent determine the exact rational
`n * 10^(ex - f)`, which is correctly rounded to binary64.  The words
`inf`, `infinity` and `nan` fall to `invalid` here, which is faithful
for `_parse_context_size` because `int()` raises on infinite and NaN
floats just as `float` itself raises `ValueError` on a malformed
literal. -/
def pyFloatOfChars (l : List Char) : PyFloatVal :=
  if l.contains '_' then .unmodelled
  else
    let signSplit : Bool × List Char :=
      match l with
      | '-' :: t => (true, t)
      | '+' :: t => (false, t)
      | t => (false, t)
    match splitExp signSplit.2 with
    | none => .invalid
    | some (mant, ex) =>
      match parseMantissa mant with
      | none => .invalid
      | some (n, f) =>
        if n = 0 then .zero
        else if (f : Int) ≤ ex then roundRat signSplit.1 (n * 10 ^ (ex - f).toNat) 1
        else roundRat signSplit.1 n (10 ^ ((f : Int) - ex).toNat)

/-- The IEEE binary64 product of the finite double of magnitude
`m * 2^g` with the exact integer `mult`: the integer significand
`m * mult` is rounded back to 53 bits (round-half-even); `none` is
overflow to infinity.  The product of a normal double with 1000 or
1000000 never underflows, so no subnormal case arises here. -/
def mulRound (m : Nat) (g : Int) (mult : Nat) : Option (Nat × Int) :=
  let p := m * mult
  let bl := natLog2 p
  if bl ≤ 52 then some (p, g)
  else
    let sh := bl - 52
    let q := p / 2 ^ sh
    let r := p % 2 ^ sh
    let q2 := if 2 ^ sh < 2 * r ∨ (2 * r = 2 ^ sh ∧ q % 2 = 1) then q + 1 else q
    let g2 := g + (sh : Int)
    if 1024 ≤ g2 ∨ (971 ≤ g2 ∧ 2 ^ (1024 - g2).toNat ≤ q2) then none
    else some (q2, g2)

/-- Truncation toward zero of `±(m * 2^g)`: Python `int(float)` on a
finite value. -/
def truncDyadic (neg : Bool) (m : Nat) (g : Int) : Int :=
  let mag : Nat := if 0 ≤ g then m * 2 ^ g.toNat else m / 2 ^ (-g).toNat
  if neg then -(mag : Int) else (mag : Int)

/-- `int(float(p) * mult)`: a `ValueError` from the parse, an
`OverflowError` from `int` of an infinite product, and the two
not-modelled literal families all land in the raising outcome. -/
def pyIntOfFloatTimes (v : PyFloatVal) (mult : Nat) : Except Unit Int :=
  match v with
  | .zero => .ok 0
  | .inf => .error ()
  | .invalid => .error ()
  | .subnormalRange => .error ()
  | .unmodelled => .error ()
  | .finite neg m g =>
    match mulRound m g mult with
    | none => .error ()
    | some (m2, g2) => .ok (truncDyadic neg m2 g2)

/-- Embedding of `_parse_context_size`: `50k` to 50000, `2.5k` to 2500,
`1m` to 1000000, a raw integer numeral otherwise.  The `k`/`m` branches
are `int(float(value[:-1]) * mult)` with full binary64 rounding and
overflow (`float` itself strips whitespace again); a malformed value
raises, modelled as `Except.error`. -/
def parse_context_size (value : String) : Except Unit Int :=
  let v := pyLower (pyStrip value)
  if pyEndsWith v "k" then
    pyIntOfFloatTimes (pyFloatOfChars (pyStrip (pyDropLast v)).data) 1000
  else if pyEndsWith v "m" then
    pyIntOfFloatTimes (pyFloatOfChars (pyStrip (pyDropLast v)).data) 1000000
  else
    pyIntStr v

set_option maxRecDepth 100000 in
set_option maxHeartbeats 1000000 in
set_option exponentiation.threshold 2000 in
/-- Evaluation checks of the float path against CPython: exact small
values, a fractional value, a rounded 17-digit value
(`float(10000000000000001) = 1e16`, times 1000 is exactly `1e19`), a
fraction whose double product rounds up to an exact integer
(`0.7 * 1000 = 700.0`), and a 400-digit numeral that overflows to
infinity so that `int()` raises `OverflowError`. -/
theorem parse_context_size_cpython_checks :
    parse_context_size "50k" = Except.ok 50000
  ∧ parse_context_size "2.5k" = Except.ok 2500
  ∧ parse_context_size "1m" = Except.ok 1000000
  ∧ parse_context_size "10000000000000001k" = Except.ok 10000000000000000000
  ∧ parse_context_size "0.7k" = Except.ok 700
  ∧ parse_context_size "2e-3k" = Except.ok 2
  ∧ parse_context_size "-2.5k" = Except.ok (-2500)
  ∧ parse_context_size "128000" = Except.ok 128000
  ∧ parse_context_size (String.mk (List.replicate 400 (Char.ofNat 57)) ++ "k")
      = Except.error () := by
  refine ⟨?_, ?_, ?_, ?_, ?_, ?_, ?_, ?_, ?_⟩ <;> rfl

inductive CostTier | ECONOMY | STANDARD | PREMIUM
deriving DecidableEq

inductive SpeedTier | FAST | STANDARD | DELIBERATE
deriving DecidableEq

inductive CapabilityClass | CODE | REASONING | GENERAL
deriving DecidableEq

inductive ResolutionPolicy | CHEAPEST | FASTEST | BEST_FIT | OPERATOR_DEFAULT
deriving DecidableEq

structure ModelRequirement where
  dimension : String
  value : String
deriving DecidableEq

structure ModelPreference where
  dimension : String
  value : String
deriving DecidableEq

structure ModelRequirements where
  requirements : List ModelRequirement
  preferences : List ModelPreference
  policy : ResolutionPolicy
deriving DecidableEq

/-- `ModelRequirements.is_empty`. -/
def ModelRequirements.is_empty (r : ModelRequirements) : Bool :=
  r.requirements.isEmpty && r.preferences.isEmpty
    && (r.policy == ResolutionPolicy.BEST_FIT)

/-- `CostTier(value)` as a lookup (a bad value raises, handled by the
caller with try/except and modelled as `none`). -/
def costTierOfString (s : String) : Option CostTier :=
  if s = "economy" then some .ECONOMY
  else if s = "standard" then some .STANDARD
  else if s = "premium" then some .PREMIUM
  else none

def speedTierOfString (s : String) : Option SpeedTier :=
  if s = "fast" then some .FAST
  else if s = "standard" then some .STANDARD
  else if s = "deliberate" then some .DELIBERATE
  else none

def capabilityOfString (s : String) : Option CapabilityClass :=
  if s = "code" then some .CODE
  else if s = "reasoning" then some .REASONING
  else if s = "general" then some .GENERAL
  else none

/-- `get_context_requirement` over the requirement list: the first
`context` requirement is parsed (and may raise). -/
def contextRequirementOf : List ModelRequirement → Except Unit (Option Int)
  | [] => .ok none
  | req :: rest =>
    if req.dimension = "context" then (parse_context_size req.value).map some
    else contextRequirementOf rest

/-- `get_tier_requirement`: the first `tier` requirement with a valid
value wins; invalid values are skipped (`except ValueError: pass`). -/
def tierRequirementOf : List ModelRequirement → Option CostTier
  | [] => none
  | req :: rest =>
    if req.dimension = "tier" then
      match costTierOfString req.value with
      | some t => some t
      | none => tierRequirementOf rest
    else tierRequirementOf rest

/-- `get_speed_requirement`. -/
def speedRequirementOf : List ModelRequirement → Option SpeedTier
  | [] => none
  | req :: rest =>
    if req.dimension = "speed" then
      match speedTierOfString req.value with
      | some t => some t
      | none => speedRequirementOf rest
    else speedRequirementOf rest

/-- `get_capability_requirement`. -/
def capabilityRequirementOf : List ModelRequirement → Option CapabilityClass
  | [] => none
  | req :: rest =>
    if req.dimension = "capability" then
      match capabilityOfString req.value with
      | some t => some t
      | none => capabilityRequirementOf rest
    else capabilityRequirementOf rest

/-- Capability record of one registry entry. -/
structure ModelCaps where
  context : Int
  tier : CostTier
  speed : SpeedTier
  capability : CapabilityClass
  vendor : String
  family : String
deriving DecidableEq

/-- The static `MODEL_CAPABILITIES` registry. -/
def MODEL_CAPABILITIES : List (String × ModelCaps) :=
  [ ("claude-opus-4", ⟨200000, .PREMIUM, .DELIBERATE, .REASONING, "anthropic", "claude"⟩),
    ("claude-sonnet-4", ⟨200000, .STANDARD, .STANDARD, .GENERAL, "anthropic", "claude"⟩),
    ("claude-haiku-3", ⟨200000, .ECONOMY, .FAST, .GENERAL, "anthropic", "claude"⟩),
    ("gpt-4", ⟨128000, .STANDARD, .STANDARD, .GENERAL, "openai", "gpt"⟩),
    ("gpt-4-turbo", ⟨128000, .STANDARD, .FAST, .GENERAL, "openai", "gpt"⟩),
    ("gpt-4o", ⟨128000, .STANDARD, .FAST, .GENERAL, "openai", "gpt"⟩),
    ("gpt-4o-mini", ⟨128000, .ECONOMY, .FAST, .GENERAL, "openai", "gpt"⟩),
    ("o1", ⟨128000, .PREMIUM, .DELIBERATE, .REASONING, "openai", "gpt"⟩) ]

def lookupCaps (m : String) : Option ModelCaps :=
  findEntry MODEL_CAPABILITIES m

def registryKeys : List String := MODEL_CAPABILITIES.map Prod.fst

/-- `available_models` defaulting (`None` means all registry keys). -/
def resolvedAvailable (av : Option (List String)) : List String :=
  match av with
  | none => registryKeys
  | some l => l

/-- The four hard-requirement checks of the `resolve_model` candidate
loop, with Python truthiness (`context_req = 0` disables the context
check, `continue` skips a failing model). -/
def keepModel (reqs : ModelRequirements) (caps : ModelCaps) (ctxReq : Option Int) : Bool :=
  (match ctxReq with
   | none => true
   | some c => if c ≠ 0 ∧ caps.context < c then false else true)
  && (match tierRequirementOf reqs.requirements with
   | none => true
   | some t => caps.tier == t)
  && (match speedRequirementOf reqs.requirements with
   | none => true
   | some t => caps.speed == t)
  && (match capabilityRequirementOf reqs.requirements with
   | none => true
   | some t => caps.capability == t)

/-- The candidate filter loop of `resolve_model`: models absent from the
registry are skipped without evaluating the requirements; for a present
model the context requirement is parsed (possibly raising) and the four
hard requirements are checked. -/
def filterCandidates (reqs : ModelRequirements) : List String → Except Unit (List String)
  | [] => .ok []
  | m :: rest =>
    match lookupCaps m with
    | none => filterCandidates reqs rest
    | some caps =>
      match contextRequirementOf reqs.requirements with
      | .error e => .error e
      | .ok ctxReq =>
        match filterCandidates reqs rest with
        | .error e => .error e
        | .ok cs => .ok (if keepModel reqs caps ctxReq then m :: cs else cs)

/-- Preference score of one candidate (vendor match 10, family match 5). -/
def scoreOf (prefs : List ModelPreference) (m : String) : Nat :=
  prefs.foldl
    (fun acc p =>
      match lookupCaps m with
      | none => acc
      | some caps =>
        if p.dimension = "vendor" ∧ caps.vendor = p.value then acc + 10
        else if p.dimension = "family" ∧ caps.family = p.value then acc + 5
        else acc)
    0

/-- Strict order on the Python sort key `(-score, model)`. -/
def scoredLt (a b : Nat × String) : Bool :=
  if b.1 < a.1 then true
  else if a.1 = b.1 ∧ a.2 < b.2 then true
  else false

/-- Stable insertion for `sorted(key = (-score, model))`: the inserted
element goes before the first strictly-greater entry. -/
def insertScored (x : Nat × String) : List (Nat × String) → List (Nat × String)
  | [] => [x]
  | y :: rest =>
    if !scoredLt y x then x :: y :: rest else y :: insertScored x rest

/-- Embedding of `scored.sort(key = (-score, model))` (stable). -/
def sortScored (l : List (Nat × String)) : List (Nat × String) :=
  l.foldr insertScored []

/-- Embedding of `resolve_model(requirements, available_models, fallback)`
from `sdqctl/core/models.py`. -/
def resolve_model (requirements : ModelRequirements)
    (available_models : Option (List String)) (fallback : Option String) :
    Except Unit (Option String) :=
  if requirements.is_empty then .ok fallback
  else
    match filterCandidates requirements (resolvedAvailable available_models) with
    | .error e => .error e
    | .ok [] => .ok fallback
    | .ok (c :: cs) =>
      let scored := (c :: cs).map (fun m => (scoreOf requirements.preferences m, m))
      match sortScored scored with
      | [] => .ok fallback
      | (topScore, topModel) :: sortedRest =>
        let sorted := (topScore, topModel) :: sortedRest
        let top_candidates := (sorted.filter (fun p => p.1 == topScore)).map Prod.snd
        match requirements.policy with
        | .CHEAPEST =>
          match top_candidates.find?
              (fun m => match lookupCaps m with
                | some c2 => c2.tier == CostTier.ECONOMY
                | none => false) with
          | some m => .ok (some m)
          | none => .ok (some (top_candidates.headD topModel))
        | .FASTEST =>
          match top_candidates.find?
              (fun m => match lookupCaps m with
                | some c2 => c2.speed == SpeedTier.FAST
                | none => false) with
          | some m => .ok (some m)
          | none => .ok (some (top_candidates.headD topModel))
        | _ => .ok (some topModel)

theorem findEntry_mem_keys {α : Type} :
    ∀ (reg : List (String × α)) (key : String) (v : α),
      findEntry reg key = some v → key ∈ reg.map Prod.fst
  | [], _, _, h => by simp [findEntry] at h
  | (k, w) :: rest, key, v, h => by
    rw [findEntry] at h
    by_cases hk : k = key
    · simp [hk]
    · rw [if_neg hk] at h
      simp only [List.map_cons, List.mem_cons]
      exact Or.inr (findEntry_mem_keys rest key v h)

theorem contextRequirementOf_ok (l : List ModelRequirement)
    (h : ∀ req ∈ l, req.dimension = "context" →
      ∃ v, parse_context_size req.value = Except.ok v) :
    ∃ v, contextRequirementOf l = Except.ok v := by
  induction l with
  | nil => exact ⟨none, rfl⟩
  | cons req rest ih =>
    rw [contextRequirementOf]
    by_cases hd : req.dimension = "context"
    · rw [if_pos hd]
      obtain ⟨v, hv⟩ := h req (List.mem_cons_self _ _) hd
      exact ⟨some v, by rw [hv]; rfl⟩
    · rw [if_neg hd]
      exact ih (fun r hr => h r (List.mem_cons_of_mem _ hr))

theorem filterCandidates_ok (reqs : ModelRequirements)
    (hctx : ∃ v, contextRequirementOf reqs.requirements = Except.ok v) :
    ∀ l : List String, ∃ cs, filterCandidates reqs l = Except.ok cs
      ∧ ∀ m ∈ cs, m ∈ l ∧ m ∈ registryKeys := by
  intro l
  induction l with
  | nil => exact ⟨[], rfl, by simp⟩
  | cons m rest ih =>
    obtain ⟨cs, hcs, hmem⟩ := ih
    rw [filterCandidates]
    cases hlook : lookupCaps m with
    | none =>
      exact ⟨cs, hcs, fun m' hm' => ⟨List.mem_cons_of_mem _ (hmem m' hm').1,
        (hmem m' hm').2⟩⟩
    | some caps =>
      obtain ⟨v, hv⟩ := hctx
      simp only [hv, hcs]
      by_cases hkeep : keepModel reqs caps v = true
      · rw [if_pos hkeep]
        refine ⟨m :: cs, rfl, ?_⟩
        intro m' hm'
        rcases List.mem_cons.1 hm' with rfl | hm'
        · exact ⟨List.mem_cons_self _ _, findEntry_mem_keys _ _ _ hlook⟩
        · exact ⟨List.mem_cons_of_mem _ (hmem m' hm').1, (hmem m' hm').2⟩
      · rw [if_neg hkeep]
        exact ⟨cs, rfl, fun m' hm' => ⟨List.mem_cons_of_mem _ (hmem m' hm').1,
          (hmem m' hm').2⟩⟩

theorem mem_insertScored (a x : Nat × String) :
    ∀ l, a ∈ insertScored x l → a = x ∨ a ∈ l
  | [], h => by
    rw [insertScored] at h
    simp at h
    exact Or.inl h
  | y :: rest, h => by
    rw [insertScored] at h
    by_cases hc : (!scoredLt y x) = true
    · rw [if_pos hc] at h
      rcases List.mem_cons.1 h with rfl | h2
      · exact Or.inl rfl
      · exact Or.inr h2
    · rw [if_neg hc] at h
      rcases List.mem_cons.1 h with rfl | h2
      · exact Or.inr (List.mem_cons_self _ _)
      · rcases mem_insertScored a x rest h2 with h3 | h3
        · exact Or.inl h3
        · exact Or.inr (List.mem_cons_of_mem _ h3)

theorem mem_sortScored (a : Nat × String) :
    ∀ l, a ∈ sortScored l → a ∈ l := by
  intro l
  induction l with
  | nil => intro h; exact absurd h (by simp [sortScored])
  | cons x t ih =>
    intro h
    have h' : a ∈ insertScored x (sortScored t) := h
    rcases mem_insertScored a x _ h' with rfl | h2
    · exact List.mem_cons_self _ _
    · exact List.mem_cons_of_mem _ (ih h2)

theorem insertScored_ne_nil (x : Nat × String) :
    ∀ l, insertScored x l ≠ []
  | [] => by rw [insertScored]; simp
  | y :: rest => by
    rw [insertScored]
    by_cases hc : (!scoredLt y x) = true
    · rw [if_pos hc]; simp
    · rw [if_neg hc]; simp

set_option maxRecDepth 100000 in
set_option maxHeartbeats 1000000 in
set_option exponentiation.threshold 2000 in
/-- C10 (counterexample): a context requirement with an unparsable value
(`context:abc`) makes `resolve_model` raise `ValueError` out of `int()`,
and a 400-digit numeral with `k` suffix makes `float` overflow to
infinity so that `int()` raises `OverflowError` — so the claim that
`resolve_model` never raises an exception is false. -/
theorem c10_resolve_model_counterexample :
    resolve_model ⟨[⟨"context", "abc"⟩], [], ResolutionPolicy.BEST_FIT⟩
      none (some "gpt-4") = Except.error ()
  ∧ resolve_model
      ⟨[⟨"context", String.mk (List.replicate 400 (Char.ofNat 57)) ++ "k"⟩], [],
        ResolutionPolicy.BEST_FIT⟩
      none (some "gpt-4") = Except.error () := by
  refine ⟨?_, ?_⟩ <;> rfl

/-- C10 (amended): provided every `context` requirement value parses
successfully (a numeral, possibly fractional or in exponent form, with
an optional `k`/`m` suffix, whose binary64 evaluation is finite),
`resolve_model` returns the fallback when the requirements are empty or
when no available registry model passes the hard-requirement filter,
never raises, and any non-fallback result is a model from both the
available list and the capability registry.  With a malformed context
value it raises `ValueError`, and with a value whose float form
overflows it raises `OverflowError` (see the counterexample). -/
theorem c10_resolve_model_characterization (r : ModelRequirements)
    (av : Option (List String)) (fb : Option String)
    (hwf : ∀ req ∈ r.requirements, req.dimension = "context" →
      ∃ v, parse_context_size req.value = Except.ok v) :
    (r.is_empty = true → resolve_model r av fb = Except.ok fb)
  ∧ (filterCandidates r (resolvedAvailable av) = Except.ok [] →
      resolve_model r av fb = Except.ok fb)
  ∧ ∃ res, resolve_model r av fb = Except.ok res
      ∧ (res = fb ∨ ∃ m, res = some m ∧ m ∈ resolvedAvailable av ∧ m ∈ registryKeys) := by
  by_cases hemp : r.is_empty = true
  · refine ⟨fun _ => ?_, fun _ => ?_, fb, ?_, Or.inl rfl⟩
      <;> rw [resolve_model, if_pos hemp]
  · have hctx := contextRequirementOf_ok r.requirements hwf
    obtain ⟨cs, hcs, hmem⟩ := filterCandidates_ok r hctx (resolvedAvailable av)
    refine ⟨fun h => absurd h hemp, ?_, ?_⟩
    · intro hnil
      rw [resolve_model, if_neg hemp, hnil]
    · cases cs with
      | nil =>
        refine ⟨fb, ?_, Or.inl rfl⟩
        rw [resolve_model, if_neg hemp, hcs]
      | cons c cs' =>
        have hsubset : ∀ m', m' ∈ (sortScored ((c :: cs').map
            (fun m => (scoreOf r.preferences m, m)))).map Prod.snd → m' ∈ c :: cs' := by
          intro m' h
          obtain ⟨⟨s, m''⟩, hmem', heq⟩ := List.mem_map.1 h
          cases heq
          have h2 := mem_sortScored _ _ hmem'
          obtain ⟨m0, hm0, heq0⟩ := List.mem_map.1 h2
          cases heq0
          exact hm0
        have hchain : ∀ m', m' ∈ c :: cs' →
            m' ∈ resolvedAvailable av ∧ m' ∈ registryKeys := fun m' h => hmem m' h
        cases hsort : sortScored ((c :: cs').map
            (fun m => (scoreOf r.preferences m, m))) with
        | nil =>
          exact absurd hsort (insertScored_ne_nil _ _)
        | cons top sortedRest =>
          obtain ⟨topScore, topModel⟩ := top
          have htopMem : topModel ∈ ((topScore, topModel) :: sortedRest).map Prod.snd := by
            simp
          have hsortedMem : ∀ m', m' ∈ ((topScore, topModel) :: sortedRest).map Prod.snd →
              m' ∈ resolvedAvailable av ∧ m' ∈ registryKeys := by
            intro m' h
            exact hchain m' (hsubset m' (hsort ▸ h))
          have htcMem : ∀ m', m' ∈ (((((topScore, topModel) :: sortedRest)).filter
              (fun p => p.1 == topScore)).map Prod.snd) →
              m' ∈ ((topScore, topModel) :: sortedRest).map Prod.snd := by
            intro m' h
            obtain ⟨p, hp, hpe⟩ := List.mem_map.1 h
            cases hpe
            exact List.mem_map.2 ⟨p, List.mem_of_mem_filter hp, rfl⟩
          have hheadD : ∀ (ts : List String),
              ts.headD topModel = topModel ∨ ts.headD topModel ∈ ts := by
            intro ts
            cases ts with
            | nil => exact Or.inl rfl
            | cons a t => exact Or.inr (List.mem_cons_self _ _)
          rw [resolve_model, if_neg hemp, hcs]
          simp only [hsort]
          cases hpol : r.policy with
          | CHEAPEST =>
            cases hfind : ((((topScore, topModel) :: sortedRest)).filter
                (fun p => p.1 == topScore)).map Prod.snd
                |>.find? (fun m => match lookupCaps m with
                  | some c2 => c2.tier == CostTier.ECONOMY
                  | none => false) with
            | some m =>
              refine ⟨some m, rfl, Or.inr ⟨m, rfl, ?_⟩⟩
              exact hsortedMem m (htcMem m (List.mem_of_find?_eq_some hfind))
            | none =>
              refine ⟨_, rfl, Or.inr ⟨_, rfl, ?_⟩⟩
              rcases hheadD (((((topScore, topModel) :: sortedRest)).filter
                  (fun p => p.1 == topScore)).map Prod.snd) with he | he
              · rw [he]; exact hsortedMem _ htopMem
              · exact hsortedMem _ (htcMem _ he)
          | FASTEST =>
            cases hfind : ((((topScore, topModel) :: sortedRest)).filter
                (fun p => p.1 == topScore)).map Prod.snd
                |>.find? (fun m => match lookupCaps m with
                  | some c2 => c2.speed == SpeedTier.FAST
                  | none => false) with
            | some m =>
              refine ⟨some m, rfl, Or.inr ⟨m, rfl, ?_⟩⟩
              exact hsortedMem m (htcMem m (List.mem_of_find?_eq_some hfind))
            | none =>
              refine ⟨_, rfl, Or.inr ⟨_, rfl, ?_⟩⟩
              rcases hheadD (((((topScore, topModel) :: sortedRest)).filter
                  (fun p => p.1 == topScore)).map Prod.snd) with he | he
              · rw [he]; exact hsortedMem _ htopMem
              · exact hsortedMem _ (htcMem _ he)
          | BEST_FIT =>
            exact ⟨some topModel, rfl, Or.inr ⟨topModel, rfl, hsortedMem _ htopMem⟩⟩
          | OPERATOR_DEFAULT =>
            exact ⟨some topModel, rfl, Or.inr ⟨topModel, rfl, hsortedMem _ htopMem⟩⟩

/-- C10 witness: the amended characterization evaluated on a concrete
`tier:economy` requirement against two available models. -/
theorem c10_resolve_model_witness :
    ∃ res, resolve_model ⟨[⟨"tier", "economy"⟩], [], ResolutionPolicy.BEST_FIT⟩
      (some ["gpt-4o-mini", "gpt-4"]) none = Except.ok res := by
  obtain ⟨res, hres, _⟩ := (c10_resolve_model_characterization
    ⟨[⟨"tier", "economy"⟩], [], ResolutionPolicy.BEST_FIT⟩
    (some ["gpt-4o-mini", "gpt-4"]) none
    (by
      intro req hreq hdim
      rw [List.mem_singleton] at hreq
      subst hreq
      exact absurd hdim (by decide))).2.2
  exact ⟨res, hres⟩

/-! ## The step executor of `_run_async` (sdqctl/commands/run.py)

The step loop of `_run_async` (lines 242-409) is embedded as a pure
recursive function over the step list.  The adapter is modelled by a
deterministic send function `String → Except String String`
(`Except.error` is a raised backend exception); the calls into the
adapter are recorded in an event trace.  Console rendering, output-file
writing and the git commit of a checkpoint step are external I/O and are
not part of the model (spec sections 1 and 6 treat them as collaborators).
`Session.add_message`, `Session.create_checkpoint` and
`Session.save_pause_checkpoint` live in the missing
`sdqctl/core/session.py` and are modelled from the spec: messages append
`(role, content)` pairs, a checkpoint appends its name, and the pause
checkpoint persists the session snapshot, the pause message and
`prompt_index`, marking the session paused. -/

/-- One conversation step consumed by the `_run_async` loop.  The loop
dispatches on exactly these four step types; other types fall through. -/
inductive Step
  | prompt (content : String)
  | checkpoint (name : String)
  | compact (preserve : List String)
  | newConversation
deriving DecidableEq

/-- One message of the session history: `(role, content)`. -/
abbrev Msg := String × String

/-- An adapter lifecycle event, as invoked by `_run_async`. -/
inductive Call
  | start
  | createSession (model : String) (streaming : Bool)
  | sendPrompt (payload : String)
  | sendCompact (payload : String)
  | destroySession
  | stop
deriving DecidableEq

/-- The session-side state mutated by the loop. -/
structure RunState where
  messages : List Msg
  responses : List String
  promptCount : Nat
  firstPrompt : Bool
  checkpoints : List String
  promptIndex : Nat
deriving DecidableEq

/-- Session status (spec section 3). -/
inductive SessionStatus
  | idle | running | paused | completed | failed
deriving DecidableEq

/-- The pause checkpoint persisted by `save_pause_checkpoint`, together
with the suspended position (the steps still to execute), which the
on-disk record encodes through `prompt_index`. -/
structure PauseInfo where
  promptIndex : Nat
  message : String
  snapshot : RunState
  remaining : List Step
deriving DecidableEq

/-- Outcome of one `_run_async` execution. -/
structure RunResult where
  status : SessionStatus
  state : RunState
  trace : List Call
  pause : Option PauseInfo
  err : Option String
deriving DecidableEq

/-- Configuration visible to the loop: the adapter send function, the
configured model, the accumulated context content, the pause-point map
(`{prompt_index: message}`) and the compaction-prompt builder
(`Session.get_compaction_prompt`, a function of the message history,
modelled from the spec since `session.py` is absent). -/
structure AdapterCfg where
  send : String → Except String String
  model : String
  contextContent : String
  pauseAfter : Nat → Option String
  compactionBase : List Msg → String

/-- `', '.flatten(preserve)`. -/
def joinComma : List String → String
  | [] => ""
  | [x] => x
  | x :: xs => x ++ ", " ++ joinComma xs

/-- The compaction request text of the `compact` branch (run.py lines
354-357): prefixed by the preserve instruction when `preserve` is
non-empty. -/
def compactPromptOf (cfg : AdapterCfg) (messages : List Msg)
    (preserve : List String) : String :=
  let base := cfg.compactionBase messages
  if preserve.isEmpty then base
  else "Preserve these items: " ++ joinComma preserve ++ "\n\n" ++ base

/-- The step loop of `_run_async` (run.py lines 272-381).  Each branch
follows the source:

* `prompt`: increments the prompt counter, prepends the context content
  to the first prompt of a session segment, sends, appends the
  `(user, prompt)` and `(assistant, response)` messages, then consults
  the pause map for `prompt_count - 1`: on a hit it sets
  `prompt_index = prompt_count`, persists the pause checkpoint, destroys
  the adapter session, stops the backend and returns;
* `checkpoint`: names the checkpoint (auto-numbered when the content is
  empty, Python `or` truthiness) and snapshots it;
* `compact`: sends the compaction request and records the response as a
  `system` message;
* `new_conversation`: destroys the adapter session, creates a fresh one
  with the same model/streaming configuration and re-arms the
  first-prompt flag;
* end of list: destroys the adapter session with status `completed`.

A send fault marks the run `failed` (the `except` clause of run.py line
403) and propagates; the caller appends the `finally` stop. -/
def stepLoop (cfg : AdapterCfg) : List Step → RunState → List Call → RunResult
  | [], st, tr =>
    { status := .completed, state := st, trace := tr ++ [.destroySession],
      pause := none, err := none }
  | .prompt content :: rest, st, tr =>
    let pc := st.promptCount + 1
    let inject := st.firstPrompt && cfg.contextContent != ""
    let fp := if inject then cfg.contextContent ++ "\n\n" ++ content else content
    let st1 := { st with promptCount := pc,
                         firstPrompt := if inject then false else st.firstPrompt }
    match cfg.send fp with
    | .error e =>
      { status := .failed, state := st1, trace := tr ++ [.sendPrompt fp],
        pause := none, err := some e }
    | .ok resp =>
      let st2 := { st1 with
        responses := st1.responses ++ [resp],
        messages := st1.messages ++ [("user", content), ("assistant", resp)] }
      let tr2 := tr ++ [.sendPrompt fp]
      match cfg.pauseAfter (pc - 1) with
      | some pmsg =>
        let st3 := { st2 with promptIndex := pc }
        { status := .paused, state := st3,
          trace := tr2 ++ [.destroySession, .stop],
          pause := some ⟨pc, pmsg, st3, rest⟩, err := none }
      | none => stepLoop cfg rest st2 tr2
  | .checkpoint name :: rest, st, tr =>
    let cpName := if name == "" then "checkpoint-" ++ toString (st.checkpoints.length + 1)
                  else name
    stepLoop cfg rest { st with checkpoints := st.checkpoints ++ [cpName] } tr
  | .compact preserve :: rest, st, tr =>
    let cp := compactPromptOf cfg st.messages preserve
    match cfg.send cp with
    | .error e =>
      { status := .failed, state := st, trace := tr ++ [.sendCompact cp],
        pause := none, err := some e }
    | .ok resp =>
      stepLoop cfg rest
        { st with messages := st.messages ++ [("system", "[Compaction summary]\n" ++ resp)] }
        (tr ++ [.sendCompact cp])
  | .newConversation :: rest, st, tr =>
    stepLoop cfg rest { st with firstPrompt := true }
      (tr ++ [.destroySession, .createSession cfg.model true])

/-- The state at `session.state.status = "running"` (run.py line 253). -/
def initState : RunState :=
  { messages := [], responses := [], promptCount := 0, firstPrompt := true,
    checkpoints := [], promptIndex := 0 }

/-- A whole `_run_async` execution: start the backend, create the adapter
session, run the loop, and append the `finally` stop (run.py line 409,
which runs on every exit path, including after the pause branch already
stopped the backend). -/
def runWorkflow (cfg : AdapterCfg) (steps : List Step) : RunResult :=
  let r := stepLoop cfg steps initState [.start, .createSession cfg.model true]
  { r with trace := r.trace ++ [.stop] }

/-- Modelled from the spec: the `resume` command (spec section 6) loads
the pause checkpoint, restores the session state verbatim and continues
step execution at the saved position against a freshly started adapter. -/
def resumeRun (cfg : AdapterCfg) (p : PauseInfo) : RunResult :=
  let r := stepLoop cfg p.remaining p.snapshot [.start, .createSession cfg.model true]
  { r with trace := r.trace ++ [.stop] }

/-- Number of prompt steps in a step list. -/
def countPrompts : List Step → Nat
  | [] => 0
  | .prompt _ :: rest => countPrompts rest + 1
  | _ :: rest => countPrompts rest

/-- A pause-point map carrying exactly one pause, after prompt `k`. -/
def singlePause (k : Nat) (msg : String) : Nat → Option String :=
  fun j => if j = k then some msg else none

/-- The same configuration with all pause points removed. -/
def AdapterCfg.clearPause (cfg : AdapterCfg) : AdapterCfg :=
  { cfg with pauseAfter := fun _ => none }

/-- The adapter never fails a send. -/
def SendOk (cfg : AdapterCfg) : Prop :=
  ∀ s, ∃ r, cfg.send s = Except.ok r

@[simp] theorem clearPause_send (cfg : AdapterCfg) :
    cfg.clearPause.send = cfg.send := rfl

@[simp] theorem clearPause_model (cfg : AdapterCfg) :
    cfg.clearPause.model = cfg.model := rfl

@[simp] theorem clearPause_contextContent (cfg : AdapterCfg) :
    cfg.clearPause.contextContent = cfg.contextContent := rfl

@[simp] theorem clearPause_compactionBase (cfg : AdapterCfg) :
    cfg.clearPause.compactionBase = cfg.compactionBase := rfl

@[simp] theorem clearPause_pauseAfter (cfg : AdapterCfg) (j : Nat) :
    cfg.clearPause.pauseAfter j = none := rfl

theorem compactPromptOf_clearPause (cfg : AdapterCfg) (messages : List Msg)
    (preserve : List String) :
    compactPromptOf cfg.clearPause messages preserve
      = compactPromptOf cfg messages preserve := rfl

/-- The trace argument only prefixes the produced trace; all other result
components are independent of it. -/
theorem stepLoop_trace_shift (cfg : AdapterCfg) :
    ∀ (steps : List Step) (st : RunState) (tr1 tr2 : List Call),
      stepLoop cfg steps st (tr1 ++ tr2)
        = { stepLoop cfg steps st tr2 with
            trace := tr1 ++ (stepLoop cfg steps st tr2).trace } := by
  intro steps
  induction steps with
  | nil =>
    intro st tr1 tr2
    simp [stepLoop]
  | cons s rest ih =>
    intro st tr1 tr2
    cases s with
    | prompt content =>
      simp only [stepLoop]
      cases cfg.send (if st.firstPrompt && cfg.contextContent != "" then
          cfg.contextContent ++ "\n\n" ++ content else content) with
      | error e => simp
      | ok resp =>
        cases cfg.pauseAfter (st.promptCount + 1 - 1) with
        | some pmsg => simp
        | none =>
          rw [List.append_assoc]
          exact ih _ tr1 _
    | checkpoint name =>
      simp only [stepLoop]
      exact ih _ tr1 tr2
    | compact preserve =>
      simp only [stepLoop]
      cases cfg.send (compactPromptOf cfg st.messages preserve) with
      | error e => simp
      | ok resp =>
        rw [List.append_assoc]
        exact ih _ tr1 _
    | newConversation =>
      simp only [stepLoop]
      rw [List.append_assoc]
      exact ih _ tr1 _

/-- When every pause index at or beyond the current prompt counter is
unregistered, the run is identical to the pause-free run. -/
theorem stepLoop_clearPause_eq (cfg : AdapterCfg) :
    ∀ (steps : List Step) (st : RunState) (tr : List Call),
      (∀ j, st.promptCount ≤ j → cfg.pauseAfter j = none) →
      stepLoop cfg steps st tr = stepLoop cfg.clearPause steps st tr := by
  intro steps
  induction steps with
  | nil =>
    intro st tr h
    rfl
  | cons s rest ih =>
    intro st tr h
    cases s with
    | prompt content =>
      simp only [stepLoop, clearPause_send, clearPause_contextContent, clearPause_model]
      cases cfg.send (if st.firstPrompt && cfg.contextContent != "" then
          cfg.contextContent ++ "\n\n" ++ content else content) with
      | error e => rfl
      | ok resp =>
        rw [h (st.promptCount + 1 - 1) (by omega)]
        simp only [clearPause_pauseAfter]
        exact ih _ _ (fun j hj => h j (by simp at hj ⊢; omega))
    | checkpoint name =>
      simp only [stepLoop]
      exact ih _ _ (fun j hj => h j (by simp at hj ⊢; omega))
    | compact preserve =>
      simp only [stepLoop, clearPause_send, clearPause_compactionBase,
        compactPromptOf_clearPause]
      cases cfg.send (compactPromptOf cfg st.messages preserve) with
      | error e => rfl
      | ok resp =>
        exact ih _ _ (fun j hj => h j (by simp at hj ⊢; omega))
    | newConversation =>
      simp only [stepLoop, clearPause_model]
      exact ih _ _ (fun j hj => h j (by simp at hj ⊢; omega))

/-- The session fields other than `prompt_index`. -/
def RunState.core (st : RunState) :
    List Msg × List String × Nat × Bool × List String :=
  (st.messages, st.responses, st.promptCount, st.firstPrompt, st.checkpoints)

/-- The loop never reads `prompt_index`: states agreeing on everything
else produce the same status, error, trace and core state. -/
theorem stepLoop_core_congr (cfg : AdapterCfg) :
    ∀ (steps : List Step) (st st' : RunState) (tr : List Call),
      st.core = st'.core →
      (stepLoop cfg steps st tr).status = (stepLoop cfg steps st' tr).status
      ∧ (stepLoop cfg steps st tr).err = (stepLoop cfg steps st' tr).err
      ∧ (stepLoop cfg steps st tr).trace = (stepLoop cfg steps st' tr).trace
      ∧ (stepLoop cfg steps st tr).state.core = (stepLoop cfg steps st' tr).state.core := by
  intro steps
  induction steps with
  | nil =>
    intro st st' tr h
    exact ⟨rfl, rfl, rfl, h⟩
  | cons s rest ih =>
    intro st st' tr h
    obtain ⟨m, r, pc, f, ck, pi⟩ := st
    obtain ⟨m', r', pc', f', ck', pi'⟩ := st'
    simp only [RunState.core, Prod.mk.injEq] at h
    obtain ⟨rfl, rfl, rfl, rfl, rfl⟩ := h
    cases s with
    | prompt content =>
      simp only [stepLoop]
      cases cfg.send (if f && cfg.contextContent != "" then
          cfg.contextContent ++ "\n\n" ++ content else content) with
      | error e => exact ⟨rfl, rfl, rfl, rfl⟩
      | ok resp =>
        cases cfg.pauseAfter (pc + 1 - 1) with
        | some pmsg => exact ⟨rfl, rfl, rfl, rfl⟩
        | none => exact ih _ _ _ rfl
    | checkpoint name =>
      simp only [stepLoop]
      exact ih _ _ _ rfl
    | compact preserve =>
      simp only [stepLoop]
      cases cfg.send (compactPromptOf cfg m preserve) with
      | error e => exact ⟨rfl, rfl, rfl, rfl⟩
      | ok resp => exact ih _ _ _ rfl
    | newConversation =>
      simp only [stepLoop]
      exact ih _ _ _ rfl

/-- With a fault-free adapter and no pause points, the loop always runs
to completion with no error. -/
theorem stepLoop_completed (cfg : AdapterCfg) (hOk : SendOk cfg)
    (hnp : ∀ j, cfg.pauseAfter j = none) :
    ∀ (steps : List Step) (st : RunState) (tr : List Call),
      (stepLoop cfg steps st tr).status = SessionStatus.completed
      ∧ (stepLoop cfg steps st tr).err = none := by
  intro steps
  induction steps with
  | nil =>
    intro st tr
    exact ⟨rfl, rfl⟩
  | cons s rest ih =>
    intro st tr
    cases s with
    | prompt content =>
      simp only [stepLoop]
      obtain ⟨resp, hresp⟩ := hOk (if st.firstPrompt && cfg.contextContent != "" then
          cfg.contextContent ++ "\n\n" ++ content else content)
      rw [hresp, hnp]
      exact ih _ _
    | checkpoint name =>
      simp only [stepLoop]
      exact ih _ _
    | compact preserve =>
      simp only [stepLoop]
      obtain ⟨resp, hresp⟩ := hOk (compactPromptOf cfg st.messages preserve)
      rw [hresp]
      exact ih _ _
    | newConversation =>
      simp only [stepLoop]
      exact ih _ _

/-- Outcome of a run that hits the single pause point after prompt `k`:
`A` (the paused run) halts right after prompt `k`'s send with a persisted
pause checkpoint, and `Acp` (the same run without pause points) agrees
with continuing the pause-free loop from the snapshot. -/
def PSplit (cfg : AdapterCfg) (k : Nat) (msg : String) (A Acp : RunResult)
    (tr : List Call) : Prop :=
  ∃ (p : PauseInfo) (tp : List Call) (mPre : List Msg) (c resp : String)
    (tp0 : List Call) (fpk : String),
    A = { status := .paused, state := p.snapshot,
          trace := tr ++ tp ++ [Call.destroySession, Call.stop],
          pause := some p, err := none }
  ∧ p.promptIndex = k + 1
  ∧ p.message = msg
  ∧ p.snapshot.promptCount = k + 1
  ∧ p.snapshot.promptIndex = k + 1
  ∧ p.snapshot.messages = mPre ++ [("user", c), ("assistant", resp)]
  ∧ tp = tp0 ++ [Call.sendPrompt fpk]
  ∧ Acp.status = (stepLoop cfg.clearPause p.remaining p.snapshot (tr ++ tp)).status
  ∧ Acp.err = (stepLoop cfg.clearPause p.remaining p.snapshot (tr ++ tp)).err
  ∧ Acp.trace = (stepLoop cfg.clearPause p.remaining p.snapshot (tr ++ tp)).trace
  ∧ Acp.state.core = (stepLoop cfg.clearPause p.remaining p.snapshot (tr ++ tp)).state.core

/-- Absorbing already-emitted events into the pause prefix. -/
theorem pSplit_shift (cfg : AdapterCfg) (k : Nat) (msg : String)
    (A Acp : RunResult) (tr evs : List Call)
    (h : PSplit cfg k msg A Acp (tr ++ evs)) : PSplit cfg k msg A Acp tr := by
  obtain ⟨p, tp, mPre, c, resp, tp0, fpk, h1, h2, h3, h4, h5, h6, h7, h8, h9, h10, h11⟩ := h
  have hassoc : (tr ++ evs) ++ tp = tr ++ (evs ++ tp) := by simp
  refine ⟨p, evs ++ tp, mPre, c, resp, evs ++ tp0, fpk, ?_, h2, h3, h4, h5, h6, ?_,
    ?_, ?_, ?_, ?_⟩
  · rw [h1]; simp [List.append_assoc]
  · rw [h7]; simp
  · rw [h8, hassoc]
  · rw [h9, hassoc]
  · rw [h10, hassoc]
  · rw [h11, hassoc]

/-- Pause decomposition: with a fault-free adapter and the pause map
`{k: msg}`, a loop entered with fewer than `k + 1` prompts already sent
and at least `k + 1 - sent` prompt steps remaining halts in the pause
branch right after prompt `k`, and the pause-free loop factors through
the snapshot. -/
theorem stepLoop_pause_split (cfg : AdapterCfg) (k : Nat) (msg : String)
    (hp : cfg.pauseAfter = singlePause k msg) (hOk : SendOk cfg) :
    ∀ (steps : List Step) (st : RunState) (tr : List Call),
      st.promptCount ≤ k → k < st.promptCount + countPrompts steps →
      PSplit cfg k msg (stepLoop cfg steps st tr)
        (stepLoop cfg.clearPause steps st tr) tr := by
  intro steps
  induction steps with
  | nil =>
    intro st tr h1 h2
    simp only [countPrompts] at h2
    omega
  | cons s rest ih =>
    intro st tr h1 h2
    cases s with
    | prompt content =>
      obtain ⟨resp0, hresp⟩ := hOk (if st.firstPrompt && cfg.contextContent != "" then
          cfg.contextContent ++ "\n\n" ++ content else content)
      simp only [stepLoop, clearPause_send, clearPause_contextContent]
      rw [hresp]
      by_cases hk : st.promptCount = k
      · subst hk
        have hpa : cfg.pauseAfter (st.promptCount + 1 - 1) = some msg := by
          rw [hp]
          simp [singlePause]
        rw [hpa]
        simp only [clearPause_pauseAfter]
        refine ⟨⟨st.promptCount + 1, msg, _, rest⟩, [Call.sendPrompt _], st.messages,
          content, resp0, [], _, rfl, rfl, rfl, rfl, rfl, rfl, rfl, ?_, ?_, ?_, ?_⟩
        · exact (stepLoop_core_congr cfg.clearPause rest _ _ _ (by rfl)).1
        · exact (stepLoop_core_congr cfg.clearPause rest _ _ _ (by rfl)).2.1
        · exact (stepLoop_core_congr cfg.clearPause rest _ _ _ (by rfl)).2.2.1
        · exact (stepLoop_core_congr cfg.clearPause rest _ _ _ (by rfl)).2.2.2
      · have hlt : st.promptCount < k := lt_of_le_of_ne h1 hk
        have hpa : cfg.pauseAfter (st.promptCount + 1 - 1) = none := by
          rw [hp]
          simp only [singlePause, Nat.add_sub_cancel]
          rw [if_neg hk]
        rw [hpa]
        simp only [clearPause_pauseAfter]
        apply pSplit_shift
        apply ih
        · exact hlt
        · simp only [countPrompts] at h2
          simp only [RunState.promptCount]
          omega
    | checkpoint name =>
      simp only [stepLoop]
      apply ih
      · exact h1
      · simp only [countPrompts] at h2
        exact h2
    | compact preserve =>
      obtain ⟨resp0, hresp⟩ := hOk (compactPromptOf cfg st.messages preserve)
      simp only [stepLoop, clearPause_send, clearPause_compactionBase,
        compactPromptOf_clearPause]
      rw [hresp]
      apply pSplit_shift
      apply ih
      · exact h1
      · simp only [countPrompts] at h2
        exact h2
    | newConversation =>
      simp only [stepLoop, clearPause_model]
      apply pSplit_shift
      apply ih
      · exact h1
      · simp only [countPrompts] at h2
        exact h2

/-- C1: with a fault-free deterministic adapter and the pause map
attaching `msg` to prompt index `k` (and `k` within the prompt steps),
the run halts right after prompt `k`'s send: the last trace events are
the final prompt send followed by `destroy_session` and `stop` (twice
stopped: once in the pause branch, once in the `finally`); the paused
state carries the `(user, prompt)`/`(assistant, response)` pair of prompt
`k` at the end of its history; the persisted pause checkpoint records
`prompt_index = k + 1` and the pause message; and resuming from the
checkpoint replays exactly the remaining adapter calls of the pause-free
run (`suffix`), ending with a message history identical to the run that
never paused, both runs completing. -/
theorem c1_pause_resume (cfg : AdapterCfg) (k : Nat) (msg : String)
    (steps : List Step) (hp : cfg.pauseAfter = singlePause k msg)
    (hOk : SendOk cfg) (hk : k < countPrompts steps) :
    ∃ (p : PauseInfo) (tp : List Call) (mPre : List Msg) (c resp : String)
      (tp0 : List Call) (fpk : String) (suffix : List Call),
      runWorkflow cfg steps
        = { status := .paused, state := p.snapshot,
            trace := ([Call.start, Call.createSession cfg.model true] ++ tp)
              ++ [Call.destroySession, Call.stop, Call.stop],
            pause := some p, err := none }
    ∧ p.promptIndex = k + 1
    ∧ p.message = msg
    ∧ p.snapshot.promptIndex = k + 1
    ∧ p.snapshot.promptCount = k + 1
    ∧ p.snapshot.messages = mPre ++ [("user", c), ("assistant", resp)]
    ∧ tp = tp0 ++ [Call.sendPrompt fpk]
    ∧ (runWorkflow cfg.clearPause steps).trace
        = ([Call.start, Call.createSession cfg.model true] ++ tp) ++ suffix
    ∧ (resumeRun cfg p).trace
        = [Call.start, Call.createSession cfg.model true] ++ suffix
    ∧ (resumeRun cfg p).state.messages
        = (runWorkflow cfg.clearPause steps).state.messages
    ∧ (runWorkflow cfg.clearPause steps).status = SessionStatus.completed
    ∧ (resumeRun cfg p).status = SessionStatus.completed := by
  have hOkP : SendOk cfg.clearPause := hOk
  have hsplit := stepLoop_pause_split cfg k msg hp hOk steps initState
    [Call.start, Call.createSession cfg.model true]
    (Nat.zero_le k) (by show k < 0 + countPrompts steps; omega)
  obtain ⟨p, tp, mPre, c, resp, tp0, fpk, h1, h2, h3, h4, h5, h6, h7, h8, h9, h10, h11⟩ :=
    hsplit
  have hclear : stepLoop cfg p.remaining p.snapshot
        [Call.start, Call.createSession cfg.model true]
      = stepLoop cfg.clearPause p.remaining p.snapshot
        [Call.start, Call.createSession cfg.model true] := by
    apply stepLoop_clearPause_eq
    intro j hj
    rw [h4] at hj
    rw [hp]
    simp only [singlePause]
    rw [if_neg (by omega)]
  have hshift1 := stepLoop_trace_shift cfg.clearPause p.remaining p.snapshot
    [Call.start, Call.createSession cfg.model true] []
  have hshift2 := stepLoop_trace_shift cfg.clearPause p.remaining p.snapshot
    ([Call.start, Call.createSession cfg.model true] ++ tp) []
  rw [List.append_nil] at hshift1 hshift2
  refine ⟨p, tp, mPre, c, resp, tp0, fpk,
    (stepLoop cfg.clearPause p.remaining p.snapshot []).trace ++ [Call.stop],
    ?_, h2, h3, h5, h4, h6, h7, ?_, ?_, ?_, ?_, ?_⟩
  · simp only [runWorkflow]
    rw [h1]
    simp [List.append_assoc]
  · simp only [runWorkflow, clearPause_model]
    rw [h10, hshift2]
    simp [List.append_assoc]
  · simp only [resumeRun]
    rw [hclear, hshift1]
    simp [List.append_assoc]
  · simp only [resumeRun, runWorkflow, clearPause_model]
    rw [hclear, hshift1]
    have h11' := h11
    rw [hshift2] at h11'
    have := congrArg (fun q => q.1) h11'
    simpa [RunState.core] using this.symm
  · simp only [runWorkflow, clearPause_model]
    exact (stepLoop_completed cfg.clearPause hOkP (fun j => rfl) steps initState _).1
  · simp only [resumeRun]
    rw [hclear]
    exact (stepLoop_completed cfg.clearPause hOkP (fun j => rfl) p.remaining p.snapshot _).1

/-- Adapter configuration for the C1 witness: a deterministic echoing
adapter, non-empty context, and a single pause after prompt 0. -/
def c1Cfg : AdapterCfg :=
  { send := fun s => Except.ok ("R:" ++ s)
    model := "gpt-4"
    contextContent := "CTX"
    pauseAfter := singlePause 0 "resume-here"
    compactionBase := fun _ => "Please compact the conversation" }

/-- C1 witness: the two-prompt workflow with a pause after prompt 0
halts in the paused state. -/
theorem c1_pause_resume_witness :
    (runWorkflow c1Cfg [Step.prompt "p0", Step.prompt "p1"]).status
      = SessionStatus.paused := by
  obtain ⟨p, tp, mPre, c, resp, tp0, fpk, suffix, h1, _⟩ :=
    c1_pause_resume c1Cfg 0 "resume-here" [Step.prompt "p0", Step.prompt "p1"]
      rfl (fun s => ⟨"R:" ++ s, rfl⟩) (by decide)
  rw [h1]

/-! ## C6: compaction steps -/

theorem substrData_joinComma (s : String) :
    ∀ l : List String, s ∈ l → SubstrData s (joinComma l) := by
  intro l
  induction l with
  | nil => intro h; exact absurd h (List.not_mem_nil s)
  | cons x xs ih =>
    intro h
    cases xs with
    | nil =>
      rw [List.mem_singleton] at h
      subst h
      exact substrData_refl s
    | cons y ys =>
      simp only [joinComma]
      rcases List.mem_cons.1 h with rfl | h2
      · exact substrData_append_left _ _ _ (substrData_append_left _ _ _ (substrData_refl s))
      · exact substrData_append_right _ _ _ (ih h2)

/-- C6: a compact step sends the compaction request and appends the
response to the history with role `system` (not `assistant`); with a
non-empty preserve list the request is prefixed by the preserve
instruction and contains every preserved item name. -/
theorem c6_compact_system_role (cfg : AdapterCfg) (preserve : List String)
    (rest : List Step) (st : RunState) (tr : List Call) (resp : String)
    (hs : cfg.send (compactPromptOf cfg st.messages preserve) = Except.ok resp) :
    stepLoop cfg (Step.compact preserve :: rest) st tr
      = stepLoop cfg rest
          { st with messages :=
              st.messages ++ [("system", "[Compaction summary]\n" ++ resp)] }
          (tr ++ [Call.sendCompact (compactPromptOf cfg st.messages preserve)])
    ∧ (preserve ≠ [] →
        compactPromptOf cfg st.messages preserve
          = "Preserve these items: " ++ joinComma preserve ++ "\n\n"
              ++ cfg.compactionBase st.messages)
    ∧ ∀ s ∈ preserve, SubstrData s (compactPromptOf cfg st.messages preserve) := by
  refine ⟨?_, ?_, ?_⟩
  · simp only [stepLoop, hs]
  · intro hne
    have he : preserve.isEmpty = false := by
      cases preserve
      · exact absurd rfl hne
      · rfl
    simp only [compactPromptOf, he]
    rfl
  · intro s hmem
    have he : preserve.isEmpty = false := by
      cases preserve
      · exact absurd hmem (List.not_mem_nil s)
      · rfl
    simp only [compactPromptOf, he, Bool.false_eq_true, if_false]
    exact substrData_append_left _ _ _ (substrData_append_left _ _ _
      (substrData_append_right _ _ _ (substrData_joinComma s preserve hmem)))

/-- Adapter configuration for the C6 and C7 witnesses: echoing adapter,
non-empty context, no pause points. -/
def c6Cfg : AdapterCfg :=
  { send := fun s => Except.ok ("R:" ++ s)
    model := "gpt-4"
    contextContent := "CTX"
    pauseAfter := fun _ => none
    compactionBase := fun _ => "Please compact the conversation" }

/-- C6 witness: both preserved item names occur in the compaction prompt
of a concrete compact step. -/
theorem c6_compact_system_role_witness :
    SubstrData "alpha" (compactPromptOf c6Cfg initState.messages ["alpha", "beta"]) :=
  (c6_compact_system_role c6Cfg ["alpha", "beta"] [] initState []
    ("R:" ++ compactPromptOf c6Cfg initState.messages ["alpha", "beta"]) rfl).2.2
    "alpha" (by decide)

/-! ## C7: context injection, once per conversation segment -/

/-- The prompt-send payloads of a trace, in order. -/
def promptSends (tr : List Call) : List String :=
  tr.filterMap (fun c => match c with
    | Call.sendPrompt p => some p
    | _ => none)

/-- The prompt payloads the loop sends, derived step by step from the
first-prompt flag (faithful to the source for non-empty context). -/
def expectedSends (ctx : String) : Bool → List Step → List String
  | _, [] => []
  | flag, Step.prompt c :: rest =>
    (if flag then ctx ++ "\n\n" ++ c else c) :: expectedSends ctx false rest
  | _, Step.newConversation :: rest => expectedSends ctx true rest
  | flag, Step.checkpoint _ :: rest => expectedSends ctx flag rest
  | flag, Step.compact _ :: rest => expectedSends ctx flag rest

/-- The conversation segments of a step list, split at
`new_conversation` boundaries (spec wording of the claim). -/
def segsOf : List Step → List (List Step)
  | [] => [[]]
  | Step.newConversation :: rest => [] :: segsOf rest
  | s :: rest =>
    match segsOf rest with
    | [] => [[s]]
    | seg :: more => (s :: seg) :: more

/-- The prompt contents of one segment. -/
def promptContents (seg : List Step) : List String :=
  seg.filterMap (fun s => match s with
    | Step.prompt c => some c
    | _ => none)

/-- Prepend the context to the first prompt of a segment only. -/
def injectFirst (ctx : String) : List String → List String
  | [] => []
  | c :: cs => (ctx ++ "\n\n" ++ c) :: cs

/-- The claim-side description of the sent prompts: per segment, the
context is prepended to exactly the first prompt. -/
def segmentedSends (ctx : String) (steps : List Step) : List String :=
  ((segsOf steps).map (fun seg => injectFirst ctx (promptContents seg))).flatten

theorem segsOf_ne_nil : ∀ steps : List Step, segsOf steps ≠ []
  | [] => by simp [segsOf]
  | Step.newConversation :: rest => by simp [segsOf]
  | Step.prompt c :: rest => by
    simp only [segsOf]
    cases segsOf rest <;> simp
  | Step.checkpoint n :: rest => by
    simp only [segsOf]
    cases segsOf rest <;> simp
  | Step.compact p :: rest => by
    simp only [segsOf]
    cases segsOf rest <;> simp

theorem expectedSends_segs (ctx : String) :
    ∀ steps : List Step,
      expectedSends ctx true steps = segmentedSends ctx steps
      ∧ ∀ seg more, segsOf steps = seg :: more →
          expectedSends ctx false steps
            = promptContents seg
                ++ ((more.map (fun s2 => injectFirst ctx (promptContents s2))).flatten) := by
  intro steps
  induction steps with
  | nil =>
    refine ⟨rfl, ?_⟩
    intro seg more h
    simp only [segsOf] at h
    cases h
    rfl
  | cons s rest ih =>
    obtain ⟨ihT, ihF⟩ := ih
    cases hsegs : segsOf rest with
    | nil => exact absurd hsegs (segsOf_ne_nil rest)
    | cons seg more =>
      cases s with
      | prompt c =>
        have hstep : segsOf (Step.prompt c :: rest) = (Step.prompt c :: seg) :: more := by
          simp only [segsOf, hsegs]
        refine ⟨?_, ?_⟩
        · rw [show expectedSends ctx true (Step.prompt c :: rest)
              = (ctx ++ "\n\n" ++ c) :: expectedSends ctx false rest from rfl,
            ihF seg more hsegs]
          simp [segmentedSends, hstep, promptContents, injectFirst, List.filterMap_cons]
        · intro seg2 more2 h
          rw [hstep] at h
          injection h with h1 h2
          subst h1
          subst h2
          rw [show expectedSends ctx false (Step.prompt c :: rest)
              = c :: expectedSends ctx false rest from rfl, ihF seg more hsegs]
          simp [promptContents, List.filterMap_cons]
      | checkpoint n =>
        have hstep : segsOf (Step.checkpoint n :: rest)
            = (Step.checkpoint n :: seg) :: more := by
          simp only [segsOf, hsegs]
        refine ⟨?_, ?_⟩
        · rw [show expectedSends ctx true (Step.checkpoint n :: rest)
              = expectedSends ctx true rest from rfl, ihT]
          simp [segmentedSends, hstep, hsegs, promptContents, List.filterMap_cons]
        · intro seg2 more2 h
          rw [hstep] at h
          injection h with h1 h2
          subst h1
          subst h2
          rw [show expectedSends ctx false (Step.checkpoint n :: rest)
              = expectedSends ctx false rest from rfl, ihF seg more hsegs]
          simp [promptContents, List.filterMap_cons]
      | compact p =>
        have hstep : segsOf (Step.compact p :: rest)
            = (Step.compact p :: seg) :: more := by
          simp only [segsOf, hsegs]
        refine ⟨?_, ?_⟩
        · rw [show expectedSends ctx true (Step.compact p :: rest)
              = expectedSends ctx true rest from rfl, ihT]
          simp [segmentedSends, hstep, hsegs, promptContents, List.filterMap_cons]
        · intro seg2 more2 h
          rw [hstep] at h
          injection h with h1 h2
          subst h1
          subst h2
          rw [show expectedSends ctx false (Step.compact p :: rest)
              = expectedSends ctx false rest from rfl, ihF seg more hsegs]
          simp [promptContents, List.filterMap_cons]
      | newConversation =>
        have hstep : segsOf (Step.newConversation :: rest) = [] :: segsOf rest := rfl
        refine ⟨?_, ?_⟩
        · rw [show expectedSends ctx true (Step.newConversation :: rest)
              = expectedSends ctx true rest from rfl, ihT]
          simp [segmentedSends, hstep, promptContents, injectFirst]
        · intro seg2 more2 h
          rw [hstep, hsegs] at h
          injection h with h1 h2
          subst h1
          subst h2
          rw [show expectedSends ctx false (Step.newConversation :: rest)
              = expectedSends ctx true rest from rfl, ihT]
          simp [segmentedSends, hsegs, promptContents, injectFirst]

/-- The prompt payloads the loop sends follow `expectedSends`: the
context is prepended exactly when the first-prompt flag is armed, and a
`new_conversation` step re-arms it. -/
theorem stepLoop_promptSends (cfg : AdapterCfg) (hOk : SendOk cfg)
    (hnp : ∀ j, cfg.pauseAfter j = none) (hctx : cfg.contextContent ≠ "") :
    ∀ (steps : List Step) (st : RunState) (tr : List Call),
      promptSends (stepLoop cfg steps st tr).trace
        = promptSends tr ++ expectedSends cfg.contextContent st.firstPrompt steps := by
  have hb : (cfg.contextContent != "") = true := by simpa using hctx
  intro steps
  induction steps with
  | nil =>
    intro st tr
    simp [stepLoop, promptSends, expectedSends]
  | cons s rest ih =>
    intro st tr
    cases s with
    | prompt content =>
      cases hf : st.firstPrompt with
      | true =>
        obtain ⟨resp, hresp⟩ := hOk (cfg.contextContent ++ "\n\n" ++ content)
        simp only [stepLoop, hf, hb, Bool.and_self, if_true, Bool.true_and]
        rw [hresp, hnp]
        rw [ih]
        simp [promptSends, expectedSends, hf]
      | false =>
        obtain ⟨resp, hresp⟩ := hOk content
        simp only [stepLoop, hf, hb, Bool.false_and, if_false, Bool.false_eq_true]
        rw [hresp, hnp]
        rw [ih]
        simp [promptSends, expectedSends, hf]
    | checkpoint name =>
      simp only [stepLoop]
      rw [ih]
      rfl
    | compact preserve =>
      obtain ⟨resp, hresp⟩ := hOk (compactPromptOf cfg st.messages preserve)
      simp only [stepLoop]
      rw [hresp, ih]
      simp [promptSends, expectedSends]
    | newConversation =>
      simp only [stepLoop]
      rw [ih]
      simp [promptSends, expectedSends]

/-- Every session the loop creates uses the configured model with
streaming on. -/
theorem stepLoop_createSession (cfg : AdapterCfg) :
    ∀ (steps : List Step) (st : RunState) (tr : List Call),
      (∀ m strm, Call.createSession m strm ∈ tr → m = cfg.model ∧ strm = true) →
      ∀ m strm, Call.createSession m strm ∈ (stepLoop cfg steps st tr).trace →
        m = cfg.model ∧ strm = true := by
  intro steps
  induction steps with
  | nil =>
    intro st tr h m strm hmem
    simp only [stepLoop, List.mem_append] at hmem
    rcases hmem with hmem | hmem
    · exact h m strm hmem
    · simp at hmem
  | cons s rest ih =>
    intro st tr h m strm hmem
    have hext : ∀ (evs : List Call),
        (∀ m2 strm2, Call.createSession m2 strm2 ∈ evs → m2 = cfg.model ∧ strm2 = true) →
        ∀ m2 strm2, Call.createSession m2 strm2 ∈ tr ++ evs →
          m2 = cfg.model ∧ strm2 = true := by
      intro evs hevs m2 strm2 hm2
      rcases List.mem_append.1 hm2 with hm2 | hm2
      · exact h m2 strm2 hm2
      · exact hevs m2 strm2 hm2
    cases s with
    | prompt content =>
      simp only [stepLoop] at hmem
      cases hsend : cfg.send (if st.firstPrompt && cfg.contextContent != "" then
          cfg.contextContent ++ "\n\n" ++ content else content) with
      | error e =>
        rw [hsend] at hmem
        simp only [] at hmem
        rcases List.mem_append.1 hmem with hm | hm
        · exact h m strm hm
        · simp at hm
      | ok resp =>
        rw [hsend] at hmem
        cases hpa : cfg.pauseAfter (st.promptCount + 1 - 1) with
        | some pmsg =>
          rw [hpa] at hmem
          simp only [] at hmem
          rcases List.mem_append.1 hmem with hm | hm
          · rcases List.mem_append.1 hm with hm2 | hm2
            · exact h m strm hm2
            · simp at hm2
          · simp at hm
        | none =>
          rw [hpa] at hmem
          exact ih _ _ (hext [Call.sendPrompt _] (by intro m2 s2 hm2; simp at hm2))
            m strm hmem
    | checkpoint name =>
      simp only [stepLoop] at hmem
      exact ih _ _ h m strm hmem
    | compact preserve =>
      simp only [stepLoop] at hmem
      cases hsend : cfg.send (compactPromptOf cfg st.messages preserve) with
      | error e =>
        rw [hsend] at hmem
        simp only [] at hmem
        rcases List.mem_append.1 hmem with hm | hm
        · exact h m strm hm
        · simp at hm
      | ok resp =>
        rw [hsend] at hmem
        exact ih _ _ (hext [Call.sendCompact _] (by intro m2 s2 hm2; simp at hm2))
          m strm hmem
    | newConversation =>
      simp only [stepLoop] at hmem
      refine ih _ _ (hext [Call.destroySession, Call.createSession cfg.model true] ?_)
        m strm hmem
      intro m2 s2 hm2
      simp only [List.mem_cons, List.mem_singleton] at hm2
      rcases hm2 with hm2 | hm2 | hm2
      · cases hm2
      · injection hm2 with e1 e2
        exact ⟨e1, e2⟩
      · cases hm2

/-- C7: with a fault-free adapter, no pause points and non-empty context
content, the sequence of prompt payloads sent by a run equals the
step list split into conversation segments at `new_conversation`
boundaries with the context prepended to exactly the first prompt of
each segment; and every adapter session created (initially and after
each `new_conversation`) uses the same configured model with streaming
enabled. -/
theorem c7_context_injection (cfg : AdapterCfg) (steps : List Step)
    (hOk : SendOk cfg) (hnp : ∀ j, cfg.pauseAfter j = none)
    (hctx : cfg.contextContent ≠ "") :
    promptSends (runWorkflow cfg steps).trace = segmentedSends cfg.contextContent steps
    ∧ ∀ m strm, Call.createSession m strm ∈ (runWorkflow cfg steps).trace →
        m = cfg.model ∧ strm = true := by
  constructor
  · simp only [runWorkflow]
    have h1 : promptSends ((stepLoop cfg steps initState
        [Call.start, Call.createSession cfg.model true]).trace ++ [Call.stop])
        = promptSends (stepLoop cfg steps initState
            [Call.start, Call.createSession cfg.model true]).trace := by
      simp [promptSends]
    rw [h1, stepLoop_promptSends cfg hOk hnp hctx]
    have h2 : promptSends [Call.start, Call.createSession cfg.model true] = [] := rfl
    rw [h2]
    have h3 := (expectedSends_segs cfg.contextContent steps).1
    simpa [initState] using h3
  · intro m strm hmem
    simp only [runWorkflow, List.mem_append] at hmem
    rcases hmem with hmem | hmem
    · refine stepLoop_createSession cfg steps initState _ ?_ m strm hmem
      intro m2 s2 hm2
      simp only [List.mem_cons, List.mem_singleton] at hm2
      rcases hm2 with hm2 | hm2 | hm2
      · cases hm2
      · injection hm2 with e1 e2
        exact ⟨e1, e2⟩
      · cases hm2
    · simp at hmem

/-- C7 witness: a four-step workflow with a `new_conversation` boundary
produces exactly the per-segment injected prompt payloads. -/
theorem c7_context_injection_witness :
    promptSends (runWorkflow c6Cfg
        [Step.prompt "p0", Step.prompt "p1", Step.newConversation, Step.prompt "p2"]).trace
      = segmentedSends "CTX"
          [Step.prompt "p0", Step.prompt "p1", Step.newConversation, Step.prompt "p2"] :=
  (c7_context_injection c6Cfg
    [Step.prompt "p0", Step.prompt "p1", Step.newConversation, Step.prompt "p2"]
    (fun s => ⟨"R:" ++ s, rfl⟩) (fun j => rfl) (by decide)).1

/-! ## C8: failure status and adapter cleanup -/

/-- Loop-level cleanup invariant: the status is `failed` exactly when a
send error is recorded, and the completed and paused exits emit
`destroy_session` into the trace.  The failed exit does not. -/
theorem stepLoop_cleanup (cfg : AdapterCfg) :
    ∀ (steps : List Step) (st : RunState) (tr : List Call),
      ((stepLoop cfg steps st tr).err.isSome
        ↔ (stepLoop cfg steps st tr).status = SessionStatus.failed)
      ∧ ((stepLoop cfg steps st tr).status = SessionStatus.completed
          ∨ (stepLoop cfg steps st tr).status = SessionStatus.paused →
        Call.destroySession ∈ (stepLoop cfg steps st tr).trace) := by
  intro steps
  induction steps with
  | nil =>
    intro st tr
    refine ⟨by simp [stepLoop], ?_⟩
    intro h
    simp [stepLoop]
  | cons s rest ih =>
    intro st tr
    cases s with
    | prompt content =>
      simp only [stepLoop]
      cases cfg.send (if st.firstPrompt && cfg.contextContent != "" then
          cfg.contextContent ++ "\n\n" ++ content else content) with
      | error e =>
        refine ⟨by simp, ?_⟩
        intro h
        rcases h with h | h <;> cases h
      | ok resp =>
        cases cfg.pauseAfter (st.promptCount + 1 - 1) with
        | some pmsg =>
          refine ⟨by simp, ?_⟩
          intro h
          simp
        | none => exact ih _ _
    | checkpoint name =>
      simp only [stepLoop]
      exact ih _ _
    | compact preserve =>
      simp only [stepLoop]
      cases cfg.send (compactPromptOf cfg st.messages preserve) with
      | error e =>
        refine ⟨by simp, ?_⟩
        intro h
        rcases h with h | h <;> cases h
      | ok resp => exact ih _ _
    | newConversation =>
      simp only [stepLoop]
      exact ih _ _

/-- C8 (amended): a send exception transitions the status to `failed`;
the backend `stop` of the `finally` block runs on every exit path; and
`destroy_session` is additionally invoked on the normal-completion and
pause exits — but not on the exception exit, where only `stop` runs. -/
theorem c8_failure_and_cleanup (cfg : AdapterCfg) (steps : List Step) :
    ((runWorkflow cfg steps).err.isSome →
      (runWorkflow cfg steps).status = SessionStatus.failed)
  ∧ Call.stop ∈ (runWorkflow cfg steps).trace
  ∧ ((runWorkflow cfg steps).status = SessionStatus.completed
      ∨ (runWorkflow cfg steps).status = SessionStatus.paused →
    Call.destroySession ∈ (runWorkflow cfg steps).trace
    ∧ Call.stop ∈ (runWorkflow cfg steps).trace) := by
  have h := stepLoop_cleanup cfg steps initState
    [Call.start, Call.createSession cfg.model true]
  refine ⟨?_, ?_, ?_⟩
  · intro he
    simp only [runWorkflow] at he ⊢
    exact h.1.1 he
  · simp only [runWorkflow]
    simp
  · intro hs
    simp only [runWorkflow] at hs ⊢
    refine ⟨List.mem_append.2 (Or.inl (h.2 hs)), by simp⟩

/-- Adapter configuration whose every send raises. -/
def c8FailCfg : AdapterCfg :=
  { send := fun _ => Except.error "backend down"
    model := "gpt-4"
    contextContent := ""
    pauseAfter := fun _ => none
    compactionBase := fun _ => "Please compact the conversation" }

/-- C8 (counterexample): when the only prompt's send raises, the run ends
`failed` and the backend is stopped, but `destroy_session` is never
invoked — the claim that both `destroy_session` and `stop` run on every
exit path fails on the exception path. -/
theorem c8_cleanup_counterexample :
    (runWorkflow c8FailCfg [Step.prompt "p"]).status = SessionStatus.failed
  ∧ Call.stop ∈ (runWorkflow c8FailCfg [Step.prompt "p"]).trace
  ∧ Call.destroySession ∉ (runWorkflow c8FailCfg [Step.prompt "p"]).trace := by
  decide

/-- C8 witness: the amended theorem evaluated on the raising adapter:
the recorded error forces `failed` status, and `stop` is in the trace. -/
theorem c8_failure_and_cleanup_witness :
    (runWorkflow c8FailCfg [Step.prompt "p"]).status = SessionStatus.failed
  ∧ Call.stop ∈ (runWorkflow c8FailCfg [Step.prompt "p"]).trace :=
  ⟨(c8_failure_and_cleanup c8FailCfg [Step.prompt "p"]).1 (by decide),
   (c8_failure_and_cleanup c8FailCfg [Step.prompt "p"]).2.1⟩

end Sdqctl
